import Mathlib

/-!
Verification development for the hostblock record store (`src/hb/src/data.cpp`).

The on-disk store is a sequence of lines:
* address lines: `'d'`, 39-byte space-padded address, 20-byte lastActivity,
  three 10-byte counters, two 1-byte `y`/`n` flags, `'\n'` (92 chars + newline);
* bookmark lines: `'b'`, two 20-byte counters, the raw log-file path, `'\n'`;
* tombstones: any line whose leading byte was overwritten with `'r'`.

Files are modelled as `List Char`; the in-memory index (`std::map`) as a
key-sorted association list.  All definitions below are transcribed from
`Data::loadData`, `Data::saveData`, `Data::addAddress`, `Data::updateAddress`,
`Data::removeAddress`, `Data::addFile`, `Data::updateFile`, `Data::removeFile`.
-/

set_option maxRecDepth 10000
set_option linter.unusedVariables false

namespace hb

/-- In-memory record for one address (`hb::SuspiciosAddressType`, name as in the
source).  C++ unsigned integers are modelled as `Nat`. -/
structure SuspiciosAddressType where
  lastActivity : Nat
  activityScore : Nat
  activityCount : Nat
  refusedCount : Nat
  whitelisted : Bool
  blacklisted : Bool
  iptableRule : Bool
deriving DecidableEq

/-- Value-initialized record, as produced by `std::map::operator[]` on a missing key. -/
def defaultSuspicious : SuspiciosAddressType :=
  { lastActivity := 0, activityScore := 0, activityCount := 0, refusedCount := 0
    whitelisted := false, blacklisted := false, iptableRule := false }

/-- One monitored log file (`hb::LogFile`): path plus persisted bookmark/size. -/
structure LogFile where
  path : List Char
  bookmark : Nat
  size : Nat
deriving DecidableEq

/-- One log group (`hb::LogGroup`); only the log-file list is relevant to the store. -/
structure LogGroup where
  logFiles : List LogFile
deriving DecidableEq

/-- The configuration fields the store reads (`hb::Config`). -/
structure Config where
  dataFilePath : List Char
  logGroups : List LogGroup
deriving DecidableEq

/-- Decimal digits of `n`, fuel-indexed so that the kernel can evaluate it
(the C++ side is `operator<<` on an unsigned integer). -/
def toDecAux : Nat → Nat → List Char
  | 0, _ => []
  | fuel + 1, n =>
    if n < 10 then [Nat.digitChar n]
    else toDecAux fuel (n / 10) ++ [Nat.digitChar (n % 10)]

/-- Decimal representation of `n`, most significant digit first. -/
def toDec (n : Nat) : List Char := toDecAux (n + 1) n

/-- Accumulating decimal parser: consumes leading digits, stops at the first
non-digit (the behaviour of `strtoul`/`strtoull` on a left-trimmed field). -/
def parseNatAux : List Char → Nat → Nat
  | [], acc => acc
  | c :: cs, acc => if c.isDigit then parseNatAux cs (acc * 10 + (c.toNat - 48)) else acc

/-- `strtoul`/`strtoull` on a trimmed field (base 10). -/
def parseNat (s : List Char) : Nat := parseNatAux s 0

/-- Modelled from the spec: whitespace as stripped by `hb::Util` trimming
(`util.h` is not among the sources; §4.1 "trim padding", padding is spaces). -/
def isSpaceChar (c : Char) : Bool := c = ' ' || c = '\t' || c = '\n' || c = '\r'

/-- Modelled from the spec: `hb::Util::ltrim` drops leading whitespace. -/
def ltrim (s : List Char) : List Char := s.dropWhile isSpaceChar

/-- Modelled from the spec: `hb::Util::rtrim` drops trailing whitespace. -/
def rtrim (s : List Char) : List Char := (s.reverse.dropWhile isSpaceChar).reverse

/-- `std::setw w` with right justification and space fill: pad on the left with
spaces up to width `w`; longer strings are written unchanged. -/
def padLeft (w : Nat) (s : List Char) : List Char := List.replicate (w - s.length) ' ' ++ s

/-- The `y`/`n` flag byte written for a boolean. -/
def flagChar (b : Bool) : Char := if b then 'y' else 'n'

/-- `std::string` comparison used by `std::map<std::string, …>`:
lexicographic on character values. -/
def strLt : List Char → List Char → Bool
  | [], [] => false
  | [], _ :: _ => true
  | _ :: _, [] => false
  | a :: as, b :: bs =>
    if a.toNat < b.toNat then true
    else if b.toNat < a.toNat then false
    else strLt as bs

/-- `std::map::insert`: inserts into the key-sorted association list only when
the key is absent; the boolean is `insert(...).second` (true iff inserted). -/
def mapInsert (k : List Char) (v : SuspiciosAddressType) :
    List (List Char × SuspiciosAddressType) → List (List Char × SuspiciosAddressType) × Bool
  | [] => ([(k, v)], true)
  | (k0, v0) :: rest =>
    if strLt k k0 then ((k, v) :: (k0, v0) :: rest, true)
    else if strLt k0 k then
      let r := mapInsert k v rest
      ((k0, v0) :: r.1, r.2)
    else ((k0, v0) :: rest, false)

/-- Lookup in the association list (`std::map::find` / `operator[]` read). -/
def mapLookup (k : List Char) : List (List Char × SuspiciosAddressType) → Option SuspiciosAddressType
  | [] => none
  | (k0, v0) :: rest => if k = k0 then some v0 else mapLookup k rest

/-- Keys of the in-memory index. -/
def addrKeys (m : List (List Char × SuspiciosAddressType)) : List (List Char) := m.map (·.1)

/-- The `std::map` ordering invariant: keys strictly increasing. -/
def sortedMap (m : List (List Char × SuspiciosAddressType)) : Prop :=
  List.Pairwise (fun a b => strLt a.1 b.1 = true) m

/-- `std::getline` applied repeatedly: split the file at `'\n'` (terminator
discarded); a final unterminated chunk still yields a line. -/
def splitLines : List Char → List (List Char)
  | [] => []
  | c :: cs =>
    if c = '\n' then [] :: splitLines cs
    else
      match splitLines cs with
      | [] => [[c]]
      | l :: ls => (c :: l) :: ls

/-- Rebuild file bytes from newline-free line contents (each line is written
followed by a single `'\n'`, as every writer in `data.cpp` does). -/
def joinLines : List (List Char) → List Char
  | [] => []
  | l :: ls => l ++ '\n' :: joinLines ls

/-- `while (f.get(c)) { if (c == '\n') break; }`: drop bytes up to and
including the next newline. -/
def dropThroughNewline : List Char → List Char
  | [] => []
  | c :: cs => if c = '\n' then cs else dropThroughNewline cs

/-- The address-record line content written by `Data::saveData` /
`Data::addAddress` (without the trailing newline): type byte `'d'`, the
address right-justified in 39 columns, then the numeric fields and flags. -/
def addressContent (address : List Char) (r : SuspiciosAddressType) : List Char :=
  'd' :: (padLeft 39 address ++ padLeft 20 (toDec r.lastActivity) ++
    padLeft 10 (toDec r.activityScore) ++ padLeft 10 (toDec r.activityCount) ++
    padLeft 10 (toDec r.refusedCount) ++ [flagChar r.whitelisted, flagChar r.blacklisted])

/-- The bookmark line content written by `Data::saveData` (without newline):
`'b'`, 20-column offset, 20-column size, then the raw path. -/
def bookmarkContent (lf : LogFile) : List Char :=
  'b' :: (padLeft 20 (toDec lf.bookmark) ++ padLeft 20 (toDec lf.size) ++ lf.path)

/-- `Data::saveData` (compaction): the full rewritten file — every in-memory
address record in map (key) order, then one bookmark line per configured log
file, each line newline-terminated. -/
def saveDataContent (addrs : List (List Char × SuspiciosAddressType))
    (groups : List LogGroup) : List Char :=
  joinLines (addrs.map (fun kv => addressContent kv.1 kv.2) ++
    (groups.map (fun g => g.logFiles.map bookmarkContent)).flatten)

/-- The replacement payload written in place by `Data::updateAddress` after the
39-byte address field: lastActivity, the three counters, both flags, newline. -/
def updPayload (r : SuspiciosAddressType) : List Char :=
  padLeft 20 (toDec r.lastActivity) ++ padLeft 10 (toDec r.activityScore) ++
    padLeft 10 (toDec r.activityCount) ++ padLeft 10 (toDec r.refusedCount) ++
    [flagChar r.whitelisted, flagChar r.blacklisted, '\n']

/-- `Data::removeFile`: a stub in the source — performs no file mutation and
returns `false` (`data.cpp` lines 433-437). -/
def removeFile (filePath : List Char) (file : List Char) : List Char × Bool :=
  (file, false)

/-- `Data::addFile`: a stub in the source — writes nothing, returns `false`. -/
def addFile (filePath : List Char) (file : List Char) : List Char × Bool :=
  (file, false)

/-- `Data::updateFile`: a stub in the source — writes nothing, returns `false`. -/
def updateFile (filePath : List Char) (file : List Char) : List Char × Bool :=
  (file, false)

/-- Inner loop of the bookmark branch of `Data::loadData`: set bookmark/size on
the first log file with a matching path; the boolean reports whether one was found. -/
def updateLogFiles (p : List Char) (bm sz : Nat) : List LogFile → List LogFile × Bool
  | [] => ([], false)
  | lf :: rest =>
    if lf.path = p then ({ lf with bookmark := bm, size := sz } :: rest, true)
    else
      let r := updateLogFiles p bm sz rest
      (lf :: r.1, r.2)

/-- Outer loop over log groups (both loops break once a match is found). -/
def updateLogGroups (p : List Char) (bm sz : Nat) : List LogGroup → List LogGroup × Bool
  | [] => ([], false)
  | g :: rest =>
    let r := updateLogFiles p bm sz g.logFiles
    if r.2 then ({ logFiles := r.1 } :: rest, true)
    else
      let r2 := updateLogGroups p bm sz rest
      ({ logFiles := r.1 } :: r2.1, r2.2)

/-- The address key decoded from a 92-char address line:
`hb::Util::ltrim(line.substr(1,39))`. -/
def parsedKey (line : List Char) : List Char := ltrim ((line.drop 1).take 39)

/-- The record decoded from a 92-char address line (`data.cpp` lines 107-128):
fixed-offset fields, `y` flags, whitelist-over-blacklist correction,
`iptableRule` reset to false. -/
def parsedRecord (line : List Char) : SuspiciosAddressType :=
  let w : Bool := if (line.drop 90).take 1 = ['y'] then true else false
  let b0 : Bool := if (line.drop 91).take 1 = ['y'] then true else false
  let b : Bool := if w = true ∧ b0 = true then false else b0
  { lastActivity := parseNat (ltrim ((line.drop 40).take 20))
    activityScore := parseNat (ltrim ((line.drop 60).take 10))
    activityCount := parseNat (ltrim ((line.drop 70).take 10))
    refusedCount := parseNat (ltrim ((line.drop 80).take 10))
    whitelisted := w
    blacklisted := b
    iptableRule := false }

/-- The mutable state of the `Data::loadData` line scan: the in-memory index,
the duplicate flag, the configuration's log groups, and the store file bytes
(mutated only through `removeFile`, which is a stub). -/
structure ScanState where
  addrs : List (List Char × SuspiciosAddressType)
  duplicatesFound : Bool
  logGroups : List LogGroup
  file : List Char
deriving DecidableEq

/-- One iteration of the `getline` loop of `Data::loadData` (lines 102-161):
a `'d'` line is decoded only when its length is exactly 92; a `'b'` line
updates the first matching configured log file, or — when orphaned — is handed
to the `removeFile` stub; everything else is skipped. -/
def processLine (st : ScanState) (line : List Char) : ScanState :=
  if line.take 1 = ['d'] ∧ line.length = 92 then
    let chk := mapInsert (parsedKey line) (parsedRecord line) st.addrs
    { st with addrs := chk.1, duplicatesFound := st.duplicatesFound || !chk.2 }
  else if line.take 1 = ['b'] then
    let bm := parseNat (ltrim ((line.drop 1).take 20))
    let sz := parseNat (ltrim ((line.drop 21).take 20))
    let p := rtrim (ltrim (line.drop 41))
    let r := updateLogGroups p bm sz st.logGroups
    if r.2 then { st with logGroups := r.1 }
    else { st with logGroups := r.1, file := (removeFile p st.file).1 }
  else st

/-- The whole line scan of `Data::loadData`. -/
def scanLines (st : ScanState) (lines : List (List Char)) : ScanState :=
  lines.foldl processLine st

/-- `Data::loadData` up to the end of the scan, starting from a cleared index. -/
def loadScan (cfg : Config) (content : List Char) : ScanState :=
  scanLines { addrs := [], duplicatesFound := false, logGroups := cfg.logGroups,
              file := content } (splitLines content)

/-- The relevant fields of `struct tm` (as produced by `localtime`). -/
structure TimeParts where
  tm_year : Nat
  tm_mon : Nat
  tm_mday : Nat
  tm_hour : Nat
  tm_min : Nat
  tm_sec : Nat
deriving DecidableEq

/-- Zero-pad a one-character numeral to two characters (`data.cpp` 173-182). -/
def pad2 (s : List Char) : List Char := if s.length = 1 then '0' :: s else s

/-- The backup name built on duplicate recovery:
`<dataFilePath>_<YYYY><MM><DD><HH><MM><SS>.bck` (`data.cpp` line 183). -/
def backupFileName (dataFilePath : List Char) (t : TimeParts) : List Char :=
  dataFilePath ++ '_' :: (toDec (t.tm_year + 1900) ++ pad2 (toDec (t.tm_mon + 1)) ++
    pad2 (toDec t.tm_mday) ++ pad2 (toDec t.tm_hour) ++ pad2 (toDec t.tm_min) ++
    pad2 (toDec t.tm_sec) ++ ['.', 'b', 'c', 'k'])

/-- Observable outcome of `Data::loadData` on an existing file: final index and
log groups, the backup rename performed (if any), the bytes rewritten by
compaction (if any), and the returned boolean. -/
structure LoadOutcome where
  suspiciousAddresses : List (List Char × SuspiciosAddressType)
  logGroups : List LogGroup
  renamedTo : Option (List Char)
  written : Option (List Char)
  ok : Bool
deriving DecidableEq

/-- `Data::loadData` on an existing, readable file (`data.cpp` 80-213).
Environment interactions are explicit inputs: `t` is the local time,
`backupExists` the `stat` result on the backup name, `renameOk` whether
`std::rename` succeeds, `saveOpenOk` whether `saveData` can open the file. -/
def loadData (cfg : Config) (content : List Char) (t : TimeParts)
    (backupExists renameOk saveOpenOk : Bool) : LoadOutcome :=
  let st := loadScan cfg content
  if st.duplicatesFound then
    let name := backupFileName cfg.dataFilePath t
    if backupExists = false then
      if renameOk = false then
        { suspiciousAddresses := st.addrs, logGroups := st.logGroups,
          renamedTo := none, written := none, ok := false }
      else
        if saveOpenOk then
          { suspiciousAddresses := st.addrs, logGroups := st.logGroups,
            renamedTo := some name,
            written := some (saveDataContent st.addrs st.logGroups), ok := true }
        else
          { suspiciousAddresses := st.addrs, logGroups := st.logGroups,
            renamedTo := some name, written := none, ok := false }
    else
      { suspiciousAddresses := st.addrs, logGroups := st.logGroups,
        renamedTo := none, written := none, ok := false }
  else
    { suspiciousAddresses := st.addrs, logGroups := st.logGroups,
      renamedTo := none, written := none, ok := true }

/-- The shared byte-wise scan loop of `Data::updateAddress` and
`Data::removeAddress` (`data.cpp` 307-339 / 369-393), fuel-indexed.  At each
record start: read one byte; on `'d'` read up to 39 bytes (stopping before a
newline) as the address field and compare its left-trim with the target —
returning the record's start offset and the field length on a match, else
skipping 53 bytes; on any other byte skip 41 bytes then consume through the
next newline. -/
def findAddrLineAux (address : List Char) : Nat → List Char → Nat → Option (Nat × Nat)
  | 0, _, _ => none
  | _ + 1, [], _ => none
  | fuel + 1, c :: rest, base =>
    if c = 'd' then
      let fA := (rest.take 39).takeWhile (fun x => x ≠ '\n')
      if ltrim fA = address then some (base, fA.length)
      else findAddrLineAux address fuel (rest.drop (fA.length + 53)) (base + 1 + fA.length + 53)
    else
      let r2 := dropThroughNewline (rest.drop 41)
      findAddrLineAux address fuel r2 (base + 1 + (rest.length - r2.length))

/-- The scan from offset `base`; the fuel `s.length + 1` never runs out since
every iteration consumes at least one byte. -/
def findAddrFrom (address : List Char) (s : List Char) (base : Nat) : Option (Nat × Nat) :=
  findAddrLineAux address (s.length + 1) s base

/-- The scan of the whole file. -/
def findAddrLine (address : List Char) (s : List Char) : Option (Nat × Nat) :=
  findAddrFrom address s 0

/-- In-place file write at byte offset `pos` (stream `operator<<` after a seek):
later bytes are overwritten, never shifted. -/
def overwriteAt (s : List Char) (pos : Nat) (data : List Char) : List Char :=
  s.take pos ++ data ++ s.drop (pos + data.length)

/-- `Data::removeAddress` (`data.cpp` 360-410): scan for the first live address
record matching `address`; on a match seek back 40 bytes from the end of the
address field and overwrite a single `'r'`; report whether a record was found.
The in-memory index is never touched by this function. -/
def removeAddress (address : List Char) (file : List Char) : List Char × Bool :=
  match findAddrLine address file with
  | none => (file, false)
  | some (base, len) => (overwriteAt file (base + 1 + len - 40) ['r'], true)

/-- `Data::updateAddress` (`data.cpp` 298-355): scan for the first live address
record matching `address`; on a match overwrite the payload after the address
field with freshly formatted values from `suspiciousAddresses[address]`
(`operator[]` inserts a default record when the key is absent); report whether
a record was found. -/
def updateAddress (suspiciousAddresses : List (List Char × SuspiciosAddressType))
    (address : List Char) (file : List Char) :
    List (List Char × SuspiciosAddressType) × List Char × Bool :=
  match findAddrLine address file with
  | none => (suspiciousAddresses, file, false)
  | some (base, len) =>
    let m := (mapInsert address defaultSuspicious suspiciousAddresses).1
    let r := (mapLookup address m).getD defaultSuspicious
    (m, overwriteAt file (base + 1 + len) (updPayload r), true)

/-- `Data::addAddress` (`data.cpp` 267-293): append one formatted address line
for `suspiciousAddresses[address]` to the end of the file. -/
def addAddress (suspiciousAddresses : List (List Char × SuspiciosAddressType))
    (address : List Char) (file : List Char) :
    List (List Char × SuspiciosAddressType) × List Char × Bool :=
  let m := (mapInsert address defaultSuspicious suspiciousAddresses).1
  let r := (mapLookup address m).getD defaultSuspicious
  (m, file ++ addressContent address r ++ ['\n'], true)

/-- Well-formedness of one line content (newline excluded) of a store file:
newline-free, at least 42 characters (a bookmark line has a non-empty path;
tombstoned lines keep their original length), and address lines are exactly
the fixed 92 characters. -/
def wfLine (l : List Char) : Prop :=
  '\n' ∉ l ∧ 42 ≤ l.length ∧ (l.take 1 = ['d'] → l.length = 92)

/-- A live address line whose decoded key equals `address`. -/
def matchesLine (address : List Char) (l : List Char) : Prop :=
  l.take 1 = ['d'] ∧ parsedKey l = address

instance (l : List Char) : Decidable (wfLine l) :=
  decidable_of_iff ('\n' ∉ l ∧ 42 ≤ l.length ∧ (l.take 1 = ['d'] → l.length = 92))
    (by rw [wfLine])

instance (address l : List Char) : Decidable (matchesLine address l) :=
  decidable_of_iff (l.take 1 = ['d'] ∧ parsedKey l = address) (by rw [matchesLine])

instance (m : List (List Char × SuspiciosAddressType)) : Decidable (sortedMap m) :=
  decidable_of_iff (List.Pairwise (fun a b => strLt a.1 b.1 = true) m) (by rw [sortedMap])

/-! ### Decimal printing and parsing -/

theorem toDecAux_congr : ∀ n f1 f2, n < f1 → n < f2 → toDecAux f1 n = toDecAux f2 n := by
  intro n
  induction n using Nat.strong_induction_on with
  | _ n ih =>
    intro f1 f2 h1 h2
    match f1, f2 with
    | f1 + 1, f2 + 1 =>
      simp only [toDecAux]
      by_cases h : n < 10
      · simp [h]
      · have hd : n / 10 < n := Nat.div_lt_self (by omega) (by omega)
        simp only [h, if_false]
        rw [ih (n / 10) hd f1 f2 (by omega) (by omega)]

theorem toDec_eq (n : Nat) :
    toDec n = if n < 10 then [Nat.digitChar n]
      else toDec (n / 10) ++ [Nat.digitChar (n % 10)] := by
  conv_lhs => rw [toDec]
  rw [show toDecAux (n + 1) n = if n < 10 then [Nat.digitChar n]
    else toDecAux n (n / 10) ++ [Nat.digitChar (n % 10)] from rfl]
  by_cases h : n < 10
  · simp [h]
  · have hd : n / 10 < n := Nat.div_lt_self (by omega) (by omega)
    rw [if_neg h, if_neg h, toDecAux_congr (n / 10) n (n / 10 + 1) (by omega) (by omega)]
    rfl

theorem toDec_mem_digit : ∀ n c, c ∈ toDec n → ∃ k, k < 10 ∧ c = Nat.digitChar k := by
  intro n
  induction n using Nat.strong_induction_on with
  | _ n ih =>
    intro c hc
    rw [toDec_eq] at hc
    by_cases h : n < 10
    · rw [if_pos h] at hc
      simp at hc
      exact ⟨n, h, hc⟩
    · rw [if_neg h] at hc
      rcases List.mem_append.mp hc with hc1 | hc1
      · exact ih (n / 10) (Nat.div_lt_self (by omega) (by omega)) c hc1
      · simp at hc1
        exact ⟨n % 10, Nat.mod_lt _ (by omega), hc1⟩

theorem toDec_ne_nil (n : Nat) : toDec n ≠ [] := by
  rw [toDec_eq]
  split <;> simp

theorem toDec_length_le : ∀ w n, 0 < w → n < 10 ^ w → (toDec n).length ≤ w := by
  intro w
  induction w with
  | zero => omega
  | succ w ihw =>
    intro n hw hn
    rw [toDec_eq]
    by_cases h : n < 10
    · rw [if_pos h]
      simp only [List.length_singleton]
      omega
    · rw [if_neg h]
      have hw0 : 0 < w := by
        by_contra h0
        have hw1 : w = 0 := by omega
        rw [hw1] at hn
        simp at hn
        omega
      have h10 : n / 10 < 10 ^ w := by
        rw [Nat.div_lt_iff_lt_mul (by omega)]
        calc n < 10 ^ (w + 1) := hn
          _ = 10 ^ w * 10 := by ring
      have := ihw (n / 10) hw0 h10
      simp [List.length_append]
      omega

theorem digitChar_isDigit : ∀ k, k < 10 →
    (Nat.digitChar k).isDigit = true ∧ (Nat.digitChar k).toNat - 48 = k := by decide

theorem toDec_all_digits (n : Nat) : ∀ c ∈ toDec n, c.isDigit = true := by
  intro c hc
  obtain ⟨k, hk, rfl⟩ := toDec_mem_digit n c hc
  exact (digitChar_isDigit k hk).1

theorem parseNatAux_append (xs ys : List Char) (acc : Nat)
    (h : ∀ c ∈ xs, c.isDigit = true) :
    parseNatAux (xs ++ ys) acc = parseNatAux ys (parseNatAux xs acc) := by
  induction xs generalizing acc with
  | nil => simp [parseNatAux]
  | cons c cs ih =>
    have hc := h c (by simp)
    simp only [List.cons_append, parseNatAux, hc, if_true]
    exact ih _ (fun c2 hc2 => h c2 (by simp [hc2]))

theorem parseNatAux_toDec : ∀ n acc,
    parseNatAux (toDec n) acc = acc * 10 ^ (toDec n).length + n := by
  intro n
  induction n using Nat.strong_induction_on with
  | _ n ih =>
    intro acc
    by_cases h : n < 10
    · rw [toDec_eq, if_pos h]
      simp [parseNatAux, (digitChar_isDigit n h).1, (digitChar_isDigit n h).2]
    · have hd : n / 10 < n := Nat.div_lt_self (by omega) (by omega)
      have hm : n % 10 < 10 := Nat.mod_lt _ (by omega)
      rw [toDec_eq, if_neg h]
      rw [parseNatAux_append _ _ _ (toDec_all_digits _)]
      rw [ih (n / 10) hd acc]
      simp only [parseNatAux, (digitChar_isDigit _ hm).1, if_true,
        (digitChar_isDigit _ hm).2, List.length_append, List.length_singleton]
      have hmod : 10 * (n / 10) + n % 10 = n := Nat.div_add_mod n 10
      calc (acc * 10 ^ (toDec (n / 10)).length + n / 10) * 10 + n % 10
          = acc * (10 ^ (toDec (n / 10)).length * 10) + (10 * (n / 10) + n % 10) := by ring
        _ = acc * 10 ^ ((toDec (n / 10)).length + 1) + n := by rw [← pow_succ, hmod]

theorem parseNat_toDec (n : Nat) : parseNat (toDec n) = n := by
  unfold parseNat
  rw [parseNatAux_toDec]
  simp

theorem dropWhile_replicate_append (p : Char → Bool) (n : Nat) (a : Char) (s : List Char)
    (h : p a = true) :
    List.dropWhile p (List.replicate n a ++ s) = List.dropWhile p s := by
  induction n with
  | zero => simp
  | succ n ih => simp [List.replicate_succ, List.dropWhile, h, ih]

theorem ltrim_padLeft (w : Nat) (s : List Char) : ltrim (padLeft w s) = ltrim s := by
  unfold ltrim padLeft
  exact dropWhile_replicate_append _ _ _ _ (by decide)

theorem isSpaceChar_digitChar : ∀ k, k < 10 → isSpaceChar (Nat.digitChar k) = false := by decide

theorem ltrim_toDec (n : Nat) : ltrim (toDec n) = toDec n := by
  unfold ltrim
  rcases he : toDec n with _ | ⟨c, cs⟩
  · simp
  · have hc : c ∈ toDec n := by rw [he]; simp
    obtain ⟨k, hk, rfl⟩ := toDec_mem_digit n c hc
    simp [List.dropWhile, isSpaceChar_digitChar k hk]

theorem newline_not_mem_toDec (n : Nat) : '\n' ∉ toDec n := by
  intro h
  obtain ⟨k, hk, he⟩ := toDec_mem_digit n '\n' h
  have hall : ∀ k2, k2 < 10 → Nat.digitChar k2 ≠ '\n' := by decide
  exact hall k hk he.symm

theorem padLeft_length (w : Nat) (s : List Char) (h : s.length ≤ w) :
    (padLeft w s).length = w := by
  simp [padLeft]
  omega

theorem newline_not_mem_padLeft (w : Nat) (s : List Char) (h : '\n' ∉ s) :
    '\n' ∉ padLeft w s := by
  intro hmem
  rcases List.mem_append.mp hmem with h1 | h1
  · have := (List.mem_replicate.mp h1).2
    simp at this
  · exact h h1

theorem ltrim_dec_field (w n : Nat) : ltrim (padLeft w (toDec n)) = toDec n := by
  rw [ltrim_padLeft, ltrim_toDec]

theorem parse_dec_field (w n : Nat) : parseNat (ltrim (padLeft w (toDec n))) = n := by
  rw [ltrim_dec_field, parseNat_toDec]

/-! ### The string order and the map -/

theorem strLt_irrefl : ∀ s, strLt s s = false := by
  intro s
  induction s with
  | nil => rfl
  | cons c cs ih => simp [strLt, ih]

theorem strLt_asymm : ∀ a b, strLt a b = true → strLt b a = false := by
  intro a
  induction a with
  | nil =>
    intro b h
    cases b with
    | nil => simp [strLt] at h
    | cons d ds => simp [strLt]
  | cons c cs ih =>
    intro b h
    cases b with
    | nil => simp [strLt] at h
    | cons d ds =>
      simp only [strLt] at h ⊢
      by_cases h1 : c.toNat < d.toNat
      · have h2 : ¬ d.toNat < c.toNat := by omega
        simp [h1, h2]
      · by_cases h2 : d.toNat < c.toNat
        · simp [h1, h2] at h
        · simp only [h1, h2, if_false] at h ⊢
          exact ih ds h

theorem mapInsert_append (k : List Char) (v : SuspiciosAddressType) :
    ∀ m, (∀ a ∈ m, strLt a.1 k = true) → mapInsert k v m = (m ++ [(k, v)], true) := by
  intro m
  induction m with
  | nil => intro _; rfl
  | cons a rest ih =>
    intro h
    obtain ⟨k0, v0⟩ := a
    have h0 : strLt k0 k = true := h (k0, v0) (by simp)
    have h1 : strLt k k0 = false := strLt_asymm _ _ h0
    simp [mapInsert, h0, h1, ih (fun a2 ha => h a2 (by simp [ha]))]

theorem mapLookup_some_mem : ∀ m k r, mapLookup k m = some r → (k, r) ∈ m := by
  intro m
  induction m with
  | nil => intro k r h; simp [mapLookup] at h
  | cons a rest ih =>
    intro k r h
    obtain ⟨k0, v0⟩ := a
    simp only [mapLookup] at h
    by_cases he : k = k0
    · rw [if_pos he] at h
      have hv : v0 = r := Option.some_inj.mp h
      rw [he, ← hv]
      exact List.mem_cons_self _ _
    · rw [if_neg he] at h
      exact List.mem_cons_of_mem _ (ih k r h)

theorem mapInsert_of_lookup : ∀ m k v r, sortedMap m → mapLookup k m = some r →
    mapInsert k v m = (m, false) := by
  intro m
  induction m with
  | nil => intro k v r _ h; simp [mapLookup] at h
  | cons a rest ih =>
    intro k v r hs hl
    obtain ⟨k0, v0⟩ := a
    simp only [mapLookup] at hl
    rw [sortedMap, List.pairwise_cons] at hs
    by_cases he : k = k0
    · rw [he]
      simp [mapInsert, strLt_irrefl]
    · rw [if_neg he] at hl
      have hmem : (k, r) ∈ rest := mapLookup_some_mem rest k r hl
      have h0 : strLt k0 k = true := hs.1 (k, r) hmem
      have h1 : strLt k k0 = false := strLt_asymm _ _ h0
      simp [mapInsert, h0, h1, ih k v r hs.2 hl]

theorem mem_mapInsert : ∀ m k v kv, kv ∈ (mapInsert k v m).1 → kv ∈ m ∨ kv = (k, v) := by
  intro m
  induction m with
  | nil =>
    intro k v kv h
    simp [mapInsert] at h
    right
    exact h
  | cons a rest ih =>
    intro k v kv h
    obtain ⟨k0, v0⟩ := a
    simp only [mapInsert] at h
    by_cases h1 : strLt k k0 = true
    · rw [if_pos h1] at h
      rcases List.mem_cons.mp h with h | h
      · right; exact h
      · left; exact h
    · rw [if_neg h1] at h
      by_cases h2 : strLt k0 k = true
      · rw [if_pos h2] at h
        rcases List.mem_cons.mp h with h | h
        · left; rw [h]; exact List.mem_cons_self _ _
        · rcases ih k v kv h with h3 | h3
          · left; exact List.mem_cons_of_mem _ h3
          · right; exact h3
      · rw [if_neg h2] at h
        left
        exact h

theorem addrKeys_mapInsert : ∀ m k v k2, k2 ∈ addrKeys (mapInsert k v m).1 →
    k2 = k ∨ k2 ∈ addrKeys m := by
  intro m k v k2 h
  rw [addrKeys, List.mem_map] at h
  obtain ⟨kv, hkv, hk2⟩ := h
  rcases mem_mapInsert m k v kv hkv with h1 | h1
  · right
    rw [addrKeys, List.mem_map]
    exact ⟨kv, h1, hk2⟩
  · left
    rw [h1] at hk2
    rw [← hk2]

/-! ### Lines of the store file -/

theorem splitLines_append (l rest : List Char) (h : '\n' ∉ l) :
    splitLines (l ++ '\n' :: rest) = l :: splitLines rest := by
  induction l with
  | nil => simp [splitLines]
  | cons c cs ih =>
    have hc : ¬ c = '\n' := fun he => h (by rw [he]; exact List.mem_cons_self _ _)
    have hcs : '\n' ∉ cs := fun hm => h (List.mem_cons_of_mem _ hm)
    simp only [List.cons_append, splitLines, if_neg hc, List.append_eq, ih hcs]

theorem splitLines_joinLines : ∀ ls : List (List Char), (∀ l ∈ ls, '\n' ∉ l) →
    splitLines (joinLines ls) = ls := by
  intro ls
  induction ls with
  | nil => intro _; rfl
  | cons l rest ih =>
    intro h
    rw [joinLines, splitLines_append l _ (h l (by simp))]
    rw [ih (fun l2 h2 => h l2 (by simp [h2]))]

theorem joinLines_append (a b : List (List Char)) :
    joinLines (a ++ b) = joinLines a ++ joinLines b := by
  induction a with
  | nil => rfl
  | cons l rest ih => simp [joinLines, ih]

/-! ### Decoding a serialized address line -/

theorem flagChar_ne_newline (b : Bool) : flagChar b ≠ '\n' := by
  cases b <;> decide

theorem addressContent_take_one (k : List Char) (r : SuspiciosAddressType) :
    (addressContent k r).take 1 = ['d'] := rfl

theorem addressContent_length (k : List Char) (r : SuspiciosAddressType)
    (hk : k.length ≤ 39)
    (h1 : r.lastActivity < 10 ^ 20) (h2 : r.activityScore < 10 ^ 10)
    (h3 : r.activityCount < 10 ^ 10) (h4 : r.refusedCount < 10 ^ 10) :
    (addressContent k r).length = 92 := by
  have e1 : (padLeft 39 k).length = 39 := padLeft_length _ _ hk
  have e2 : (padLeft 20 (toDec r.lastActivity)).length = 20 :=
    padLeft_length _ _ (toDec_length_le 20 _ (by omega) h1)
  have e3 : (padLeft 10 (toDec r.activityScore)).length = 10 :=
    padLeft_length _ _ (toDec_length_le 10 _ (by omega) h2)
  have e4 : (padLeft 10 (toDec r.activityCount)).length = 10 :=
    padLeft_length _ _ (toDec_length_le 10 _ (by omega) h3)
  have e5 : (padLeft 10 (toDec r.refusedCount)).length = 10 :=
    padLeft_length _ _ (toDec_length_le 10 _ (by omega) h4)
  simp [addressContent, e1, e2, e3, e4, e5]

theorem newline_not_mem_addressContent (k : List Char) (r : SuspiciosAddressType)
    (hk : '\n' ∉ k) : '\n' ∉ addressContent k r := by
  have hA := newline_not_mem_padLeft 39 k hk
  have hB := newline_not_mem_padLeft 20 _ (newline_not_mem_toDec r.lastActivity)
  have hC := newline_not_mem_padLeft 10 _ (newline_not_mem_toDec r.activityScore)
  have hD := newline_not_mem_padLeft 10 _ (newline_not_mem_toDec r.activityCount)
  have hE := newline_not_mem_padLeft 10 _ (newline_not_mem_toDec r.refusedCount)
  have hw := flagChar_ne_newline r.whitelisted
  have hb := flagChar_ne_newline r.blacklisted
  intro h
  rw [addressContent] at h
  rcases List.mem_cons.mp h with h | h
  · exact absurd h (by decide)
  rcases List.mem_append.mp h with h | h
  · rcases List.mem_append.mp h with h | h
    · rcases List.mem_append.mp h with h | h
      · rcases List.mem_append.mp h with h | h
        · rcases List.mem_append.mp h with h | h
          · exact hA h
          · exact hB h
        · exact hC h
      · exact hD h
    · exact hE h
  · rcases List.mem_cons.mp h with h | h
    · exact hw h.symm
    rcases List.mem_cons.mp h with h | h
    · exact hb h.symm
    · exact List.not_mem_nil _ h

theorem addressContent_drop_one (k : List Char) (r : SuspiciosAddressType) :
    (addressContent k r).drop 1 = padLeft 39 k ++ (padLeft 20 (toDec r.lastActivity) ++
      (padLeft 10 (toDec r.activityScore) ++ (padLeft 10 (toDec r.activityCount) ++
      (padLeft 10 (toDec r.refusedCount) ++
        [flagChar r.whitelisted, flagChar r.blacklisted])))) := by
  simp [addressContent]

theorem parsedKey_addressContent (k : List Char) (r : SuspiciosAddressType)
    (hk : k.length ≤ 39) : parsedKey (addressContent k r) = ltrim k := by
  have e1 : (padLeft 39 k).length = 39 := padLeft_length _ _ hk
  rw [parsedKey, addressContent_drop_one, List.take_left' e1, ltrim_padLeft]

theorem parsedRecord_addressContent (k : List Char) (r : SuspiciosAddressType)
    (hk : k.length ≤ 39)
    (h1 : r.lastActivity < 10 ^ 20) (h2 : r.activityScore < 10 ^ 10)
    (h3 : r.activityCount < 10 ^ 10) (h4 : r.refusedCount < 10 ^ 10)
    (hwb : ¬(r.whitelisted = true ∧ r.blacklisted = true))
    (hip : r.iptableRule = false) :
    parsedRecord (addressContent k r) = r := by
  obtain ⟨la, sc, ct, rf, w, b, ip⟩ := r
  simp only at h1 h2 h3 h4 hwb hip
  subst hip
  have e1 : (padLeft 39 k).length = 39 := padLeft_length _ _ hk
  have e2 : (padLeft 20 (toDec la)).length = 20 :=
    padLeft_length _ _ (toDec_length_le 20 _ (by omega) h1)
  have e3 : (padLeft 10 (toDec sc)).length = 10 :=
    padLeft_length _ _ (toDec_length_le 10 _ (by omega) h2)
  have e4 : (padLeft 10 (toDec ct)).length = 10 :=
    padLeft_length _ _ (toDec_length_le 10 _ (by omega) h3)
  have e5 : (padLeft 10 (toDec rf)).length = 10 :=
    padLeft_length _ _ (toDec_length_le 10 _ (by omega) h4)
  set dc := addressContent k (SuspiciosAddressType.mk la sc ct rf w b false) with hdc
  have d40 : dc.drop 40 = padLeft 20 (toDec la) ++ (padLeft 10 (toDec sc) ++
      (padLeft 10 (toDec ct) ++ (padLeft 10 (toDec rf) ++ [flagChar w, flagChar b]))) := by
    have hstep : dc.drop 40 = (dc.drop 1).drop 39 := by rw [List.drop_drop]
    rw [hstep, hdc, addressContent_drop_one, List.drop_left' e1]
  have d60 : dc.drop 60 = padLeft 10 (toDec sc) ++
      (padLeft 10 (toDec ct) ++ (padLeft 10 (toDec rf) ++ [flagChar w, flagChar b])) := by
    have hstep : dc.drop 60 = (dc.drop 40).drop 20 := by rw [List.drop_drop]
    rw [hstep, d40, List.drop_left' e2]
  have d70 : dc.drop 70 = padLeft 10 (toDec ct) ++
      (padLeft 10 (toDec rf) ++ [flagChar w, flagChar b]) := by
    have hstep : dc.drop 70 = (dc.drop 60).drop 10 := by rw [List.drop_drop]
    rw [hstep, d60, List.drop_left' e3]
  have d80 : dc.drop 80 = padLeft 10 (toDec rf) ++ [flagChar w, flagChar b] := by
    have hstep : dc.drop 80 = (dc.drop 70).drop 10 := by rw [List.drop_drop]
    rw [hstep, d70, List.drop_left' e4]
  have d90 : dc.drop 90 = [flagChar w, flagChar b] := by
    have hstep : dc.drop 90 = (dc.drop 80).drop 10 := by rw [List.drop_drop]
    rw [hstep, d80, List.drop_left' e5]
  have d91 : dc.drop 91 = [flagChar b] := by
    have hstep : dc.drop 91 = (dc.drop 90).drop 1 := by rw [List.drop_drop]
    rw [hstep, d90]
    rfl
  have f1 : (dc.drop 40).take 20 = padLeft 20 (toDec la) := by
    rw [d40, List.take_left' e2]
  have f2 : (dc.drop 60).take 10 = padLeft 10 (toDec sc) := by
    rw [d60, List.take_left' e3]
  have f3 : (dc.drop 70).take 10 = padLeft 10 (toDec ct) := by
    rw [d70, List.take_left' e4]
  have f4 : (dc.drop 80).take 10 = padLeft 10 (toDec rf) := by
    rw [d80, List.take_left' e5]
  have g1 : (dc.drop 90).take 1 = [flagChar w] := by rw [d90]; rfl
  have g2 : (dc.drop 91).take 1 = [flagChar b] := by rw [d91]; rfl
  rw [parsedRecord, f1, f2, f3, f4, g1, g2]
  simp only [parse_dec_field]
  cases w <;> cases b <;> simp_all [flagChar]

/-! ### The `loadData` line scan -/

theorem processLine_accepted (st : ScanState) (line : List Char)
    (hd : line.take 1 = ['d']) (hlen : line.length = 92) :
    processLine st line =
      { st with addrs := (mapInsert (parsedKey line) (parsedRecord line) st.addrs).1,
                duplicatesFound := st.duplicatesFound ||
                  !(mapInsert (parsedKey line) (parsedRecord line) st.addrs).2 } := by
  rw [processLine, if_pos ⟨hd, hlen⟩]

theorem processLine_skipped_d (st : ScanState) (line : List Char)
    (hd : line.take 1 = ['d']) (hlen : line.length ≠ 92) :
    processLine st line = st := by
  rw [processLine, if_neg (fun hc => hlen hc.2), if_neg]
  rw [hd]
  decide

theorem processLine_addrs_cases (st : ScanState) (l : List Char) :
    (processLine st l).addrs = st.addrs ∨
    ((processLine st l).addrs = (mapInsert (parsedKey l) (parsedRecord l) st.addrs).1) := by
  rw [processLine]
  split
  · right; rfl
  · split
    · dsimp only
      split
      · left; rfl
      · left; rfl
    · left; rfl

theorem processLine_not_d (st : ScanState) (l : List Char)
    (h : l.take 1 ≠ ['d']) : (processLine st l).addrs = st.addrs := by
  rw [processLine, if_neg (fun hc => h hc.1)]
  split
  · dsimp only
    split <;> rfl
  · rfl

theorem scanLines_nil (st : ScanState) : scanLines st [] = st := rfl

theorem scanLines_cons (st : ScanState) (l : List Char) (ls : List (List Char)) :
    scanLines st (l :: ls) = scanLines (processLine st l) ls := rfl

theorem scanLines_append (st : ScanState) (a b : List (List Char)) :
    scanLines st (a ++ b) = scanLines (scanLines st a) b := by
  rw [scanLines, scanLines, scanLines, List.foldl_append]

theorem parsedRecord_not_both (line : List Char) :
    ¬((parsedRecord line).whitelisted = true ∧ (parsedRecord line).blacklisted = true) := by
  rw [parsedRecord]
  dsimp only
  by_cases hw : (line.drop 90).take 1 = ['y'] <;>
    by_cases hb : (line.drop 91).take 1 = ['y'] <;> simp [hw, hb]

theorem scan_not_both : ∀ (lines : List (List Char)) (st : ScanState),
    (∀ kv ∈ st.addrs, ¬(kv.2.whitelisted = true ∧ kv.2.blacklisted = true)) →
    ∀ kv ∈ (scanLines st lines).addrs,
      ¬(kv.2.whitelisted = true ∧ kv.2.blacklisted = true) := by
  intro lines
  induction lines with
  | nil => intro st h kv hm; rw [scanLines_nil] at hm; exact h kv hm
  | cons l ls ih =>
    intro st h kv hm
    rw [scanLines_cons] at hm
    refine ih (processLine st l) ?_ kv hm
    intro kv2 hm2
    rcases processLine_addrs_cases st l with hc | hc
    · rw [hc] at hm2
      exact h kv2 hm2
    · rw [hc] at hm2
      rcases mem_mapInsert _ _ _ _ hm2 with h3 | h3
      · exact h kv2 h3
      · rw [h3]
        exact parsedRecord_not_both l

/-! ### Serialization round trip -/

theorem bookmarkContent_take_one (lf : LogFile) : (bookmarkContent lf).take 1 = ['b'] := rfl

theorem newline_not_mem_bookmarkContent (lf : LogFile) (hp : '\n' ∉ lf.path) :
    '\n' ∉ bookmarkContent lf := by
  have hB1 := newline_not_mem_padLeft 20 _ (newline_not_mem_toDec lf.bookmark)
  have hB2 := newline_not_mem_padLeft 20 _ (newline_not_mem_toDec lf.size)
  intro h
  rw [bookmarkContent] at h
  rcases List.mem_cons.mp h with h | h
  · exact absurd h (by decide)
  rcases List.mem_append.mp h with h | h
  · rcases List.mem_append.mp h with h | h
    · exact hB1 h
    · exact hB2 h
  · exact hp h

theorem scan_skips_bookmark_lines : ∀ (bls : List (List Char)) (st : ScanState),
    (∀ l ∈ bls, l.take 1 ≠ ['d']) → (scanLines st bls).addrs = st.addrs := by
  intro bls
  induction bls with
  | nil => intro st _; rfl
  | cons l ls ih =>
    intro st h
    rw [scanLines_cons, ih _ (fun l2 h2 => h l2 (by simp [h2])),
      processLine_not_d st l (h l (by simp))]

theorem scan_serialized_lines : ∀ (idx : List (List Char × SuspiciosAddressType))
    (st : ScanState),
    (∀ a ∈ st.addrs, ∀ b ∈ idx, strLt a.1 b.1 = true) →
    sortedMap idx →
    (∀ kv ∈ idx, ltrim kv.1 = kv.1 ∧ kv.1.length ≤ 39) →
    (∀ kv ∈ idx, kv.2.lastActivity < 10 ^ 20 ∧ kv.2.activityScore < 10 ^ 10 ∧
      kv.2.activityCount < 10 ^ 10 ∧ kv.2.refusedCount < 10 ^ 10 ∧
      ¬(kv.2.whitelisted = true ∧ kv.2.blacklisted = true) ∧ kv.2.iptableRule = false) →
    (scanLines st (idx.map fun kv => addressContent kv.1 kv.2)).addrs = st.addrs ++ idx := by
  intro idx
  induction idx with
  | nil => intro st _ _ _ _; simp [scanLines_nil]
  | cons kv rest ih =>
    intro st hlt hsorted hkeys hfits
    obtain ⟨k, r⟩ := kv
    have hk := hkeys (k, r) (by simp)
    have hf := hfits (k, r) (by simp)
    have hlen : (addressContent k r).length = 92 :=
      addressContent_length k r hk.2 hf.1 hf.2.1 hf.2.2.1 hf.2.2.2.1
    have hkey : parsedKey (addressContent k r) = k := by
      rw [parsedKey_addressContent k r hk.2, hk.1]
    have hrec : parsedRecord (addressContent k r) = r :=
      parsedRecord_addressContent k r hk.2 hf.1 hf.2.1 hf.2.2.1 hf.2.2.2.1
        hf.2.2.2.2.1 hf.2.2.2.2.2
    have hins : mapInsert k r st.addrs = (st.addrs ++ [(k, r)], true) :=
      mapInsert_append k r st.addrs (fun a ha => hlt a ha (k, r) (by simp))
    rw [List.map_cons, scanLines_cons,
      processLine_accepted st _ (addressContent_take_one k r) hlen, hkey, hrec, hins]
    rw [sortedMap, List.pairwise_cons] at hsorted
    rw [ih _ ?_ hsorted.2 (fun kv2 h2 => hkeys kv2 (by simp [h2]))
      (fun kv2 h2 => hfits kv2 (by simp [h2]))]
    · simp
    · intro a ha b hb
      rcases List.mem_append.mp ha with ha2 | ha2
      · exact hlt a ha2 b (by simp [hb])
      · have hae : a = (k, r) := by simpa using ha2
        rw [hae]
        exact hsorted.1 b hb

theorem mem_bookmark_lines (groups : List LogGroup) (l : List Char)
    (h : l ∈ (groups.map (fun g => g.logFiles.map bookmarkContent)).flatten) :
    ∃ g ∈ groups, ∃ lf ∈ g.logFiles, l = bookmarkContent lf := by
  rw [List.mem_flatten] at h
  obtain ⟨bl, hbl, hl⟩ := h
  rw [List.mem_map] at hbl
  obtain ⟨g, hg, rfl⟩ := hbl
  rw [List.mem_map] at hl
  obtain ⟨lf, hlf, rfl⟩ := hl
  exact ⟨g, hg, lf, hlf, rfl⟩

/-! ### The byte-wise scan of `updateAddress` and `removeAddress` -/

theorem dropThroughNewline_length_le (s : List Char) :
    (dropThroughNewline s).length ≤ s.length := by
  induction s with
  | nil => simp [dropThroughNewline]
  | cons c cs ih =>
    rw [dropThroughNewline]
    split
    · simp
    · simp only [List.length_cons]
      omega

theorem dropThroughNewline_append (x y : List Char) (h : '\n' ∉ x) :
    dropThroughNewline (x ++ '\n' :: y) = y := by
  induction x with
  | nil => simp [dropThroughNewline]
  | cons c cs ih =>
    have hc : ¬ c = '\n' := fun he => h (by rw [he]; exact List.mem_cons_self _ _)
    rw [List.cons_append, dropThroughNewline, if_neg hc,
      ih (fun hm => h (List.mem_cons_of_mem _ hm))]

theorem findAddrLineAux_stable (address : List Char) : ∀ fuel s base, s.length < fuel →
    findAddrLineAux address fuel s base = findAddrLineAux address (s.length + 1) s base := by
  intro fuel
  induction fuel using Nat.strong_induction_on with
  | _ fuel ih =>
    intro s base hlt
    cases fuel with
    | zero => omega
    | succ f =>
      cases s with
      | nil => rfl
      | cons c rest =>
        simp only [List.length_cons] at hlt ⊢
        simp only [findAddrLineAux]
        have hr : rest.length < f := by omega
        by_cases hc : c = 'd'
        · rw [if_pos hc, if_pos hc]
          by_cases hm : ltrim ((rest.take 39).takeWhile (fun x => x ≠ '\n')) = address
          · rw [if_pos hm, if_pos hm]
          · rw [if_neg hm, if_neg hm]
            have hlen : (rest.drop
                (((rest.take 39).takeWhile (fun x => x ≠ '\n')).length + 53)).length ≤
                rest.length := by
              rw [List.length_drop]
              omega
            rw [ih f (by omega) _ _ (by omega),
              ih (rest.length + 1) (by omega) _ _ (by omega)]
        · rw [if_neg hc, if_neg hc]
          have hlen : (dropThroughNewline (rest.drop 41)).length ≤ rest.length := by
            have h1 := dropThroughNewline_length_le (rest.drop 41)
            rw [List.length_drop] at h1
            omega
          rw [ih f (by omega) _ _ (by omega),
            ih (rest.length + 1) (by omega) _ _ (by omega)]

theorem findAddrFrom_cons (address : List Char) (c : Char) (rest : List Char) (base : Nat) :
    findAddrFrom address (c :: rest) base =
      if c = 'd' then
        if ltrim ((rest.take 39).takeWhile (fun x => x ≠ '\n')) = address then
          some (base, ((rest.take 39).takeWhile (fun x => x ≠ '\n')).length)
        else
          findAddrFrom address
            (rest.drop (((rest.take 39).takeWhile (fun x => x ≠ '\n')).length + 53))
            (base + 1 + ((rest.take 39).takeWhile (fun x => x ≠ '\n')).length + 53)
      else
        findAddrFrom address (dropThroughNewline (rest.drop 41))
          (base + 1 + (rest.length - (dropThroughNewline (rest.drop 41)).length)) := by
  rw [findAddrFrom]
  simp only [List.length_cons, findAddrLineAux]
  by_cases hc : c = 'd'
  · rw [if_pos hc, if_pos hc]
    by_cases hm : ltrim ((rest.take 39).takeWhile (fun x => x ≠ '\n')) = address
    · rw [if_pos hm, if_pos hm]
    · rw [if_neg hm, if_neg hm, findAddrFrom,
        findAddrLineAux_stable address (rest.length + 1) _ _ (by rw [List.length_drop]; omega)]
  · rw [if_neg hc, if_neg hc, findAddrFrom]
    have hlen : (dropThroughNewline (rest.drop 41)).length ≤ rest.length := by
      have h1 := dropThroughNewline_length_le (rest.drop 41)
      rw [List.length_drop] at h1
      omega
    rw [findAddrLineAux_stable address (rest.length + 1) _ _ (by omega)]

end hb

namespace hb

theorem wf_d_line_shape (l : List Char) (hw : wfLine l) (hd : l.take 1 = ['d']) :
    ∃ tl, l = 'd' :: tl ∧ tl.length = 91 ∧ '\n' ∉ tl := by
  obtain ⟨hnl, hge, hfix⟩ := hw
  cases l with
  | nil => simp at hd
  | cons c tl =>
    have hc : c = 'd' := by
      simp [List.take] at hd
      exact hd
    subst hc
    have hlen : tl.length = 91 := by
      have := hfix hd
      simp only [List.length_cons] at this
      omega
    exact ⟨tl, rfl, hlen, fun hm => hnl (List.mem_cons_of_mem _ hm)⟩

theorem wf_field_eq (tl rest : List Char) (htl : tl.length = 91) (hnl : '\n' ∉ tl) :
    ((tl ++ '\n' :: rest).take 39).takeWhile (fun x => x ≠ '\n') = tl.take 39 := by
  rw [List.take_append_of_le_length (by omega)]
  apply List.takeWhile_eq_self_iff.mpr
  intro x hx
  have hxm : x ∈ tl := List.mem_of_mem_take hx
  simp only [ne_eq, decide_eq_true_eq]
  exact fun he => hnl (he ▸ hxm)

theorem findAddrFrom_skip_d (a l rest : List Char) (base : Nat)
    (hw : wfLine l) (hd : l.take 1 = ['d']) (hnm : ¬ matchesLine a l) :
    findAddrFrom a (l ++ '\n' :: rest) base = findAddrFrom a rest (base + 93) := by
  obtain ⟨tl, rfl, htl, hnl⟩ := wf_d_line_shape l hw hd
  rw [List.cons_append, findAddrFrom_cons, if_pos rfl, wf_field_eq tl rest htl hnl]
  have hkey : ltrim (tl.take 39) = parsedKey ('d' :: tl) := by
    rw [parsedKey]
    rfl
  have hnm2 : ¬ ltrim (tl.take 39) = a := by
    intro he
    exact hnm ⟨hd, by rw [← hkey]; exact he⟩
  rw [if_neg hnm2]
  have hlen : (tl.take 39).length = 39 := by
    simp [List.length_take]
    omega
  rw [hlen]
  have hdrop : (tl ++ '\n' :: rest).drop (39 + 53) = rest := by
    have h92 : (39 : Nat) + 53 = 91 + 1 := by omega
    rw [h92, ← htl]
    rw [show tl.length + 1 = tl.length + 1 from rfl]
    rw [List.drop_append]
    rfl
  rw [hdrop]

theorem findAddrFrom_skip_other (a l rest : List Char) (base : Nat)
    (hw : wfLine l) (hd : l.take 1 ≠ ['d']) :
    findAddrFrom a (l ++ '\n' :: rest) base =
      findAddrFrom a rest (base + l.length + 1) := by
  obtain ⟨hnl, hge, hfix⟩ := hw
  cases l with
  | nil => simp at hge
  | cons c tl =>
    have hc : ¬ c = 'd' := by
      intro he
      exact hd (by rw [he]; rfl)
    have htl : 41 ≤ tl.length := by
      simp only [List.length_cons] at hge
      omega
    rw [List.cons_append, findAddrFrom_cons, if_neg hc]
    have hdrop : (tl ++ '\n' :: rest).drop 41 = tl.drop 41 ++ '\n' :: rest :=
      List.drop_append_of_le_length htl
    have hnl2 : '\n' ∉ tl.drop 41 := by
      intro hm
      exact hnl (List.mem_cons_of_mem _ (List.mem_of_mem_drop hm))
    rw [hdrop, dropThroughNewline_append _ _ hnl2]
    have hlen : (tl ++ '\n' :: rest).length - rest.length = tl.length + 1 := by
      simp only [List.length_append, List.length_cons]
      omega
    rw [hlen]
    have hbase : base + 1 + (tl.length + 1) = base + (c :: tl).length + 1 := by
      simp only [List.length_cons]
      omega
    rw [hbase]

theorem findAddrFrom_hit (a l rest : List Char) (base : Nat)
    (hw : wfLine l) (hm : matchesLine a l) :
    findAddrFrom a (l ++ '\n' :: rest) base = some (base, 39) := by
  obtain ⟨tl, rfl, htl, hnl⟩ := wf_d_line_shape l hw hm.1
  rw [List.cons_append, findAddrFrom_cons, if_pos rfl, wf_field_eq tl rest htl hnl]
  have hkey : ltrim (tl.take 39) = a := hm.2
  rw [if_pos hkey]
  have hlen : (tl.take 39).length = 39 := by
    simp [List.length_take]
    omega
  rw [hlen]

theorem findAddrFrom_join_none (a : List Char) : ∀ (ls : List (List Char)) (base : Nat),
    (∀ l ∈ ls, wfLine l ∧ ¬ matchesLine a l) →
    findAddrFrom a (joinLines ls) base = none := by
  intro ls
  induction ls with
  | nil => intro base _; rfl
  | cons l rest ih =>
    intro base h
    have hl := h l (by simp)
    rw [joinLines]
    by_cases hd : l.take 1 = ['d']
    · rw [findAddrFrom_skip_d a l _ base hl.1 hd hl.2]
      exact ih _ (fun l2 h2 => h l2 (by simp [h2]))
    · rw [findAddrFrom_skip_other a l _ base hl.1 hd]
      exact ih _ (fun l2 h2 => h l2 (by simp [h2]))

theorem findAddrFrom_join_hit (a dl : List Char) (post : List (List Char)) :
    ∀ (pre : List (List Char)) (base : Nat),
    (∀ l ∈ pre, wfLine l ∧ ¬ matchesLine a l) →
    wfLine dl → matchesLine a dl →
    findAddrFrom a (joinLines (pre ++ dl :: post)) base =
      some (base + (joinLines pre).length, 39) := by
  intro pre
  induction pre with
  | nil =>
    intro base _ hwdl hmdl
    rw [List.nil_append,
      show joinLines (dl :: post) = dl ++ '\n' :: joinLines post from rfl,
      findAddrFrom_hit a dl _ base hwdl hmdl]
    simp [joinLines]
  | cons l rest ih =>
    intro base h hwdl hmdl
    have hl := h l (by simp)
    rw [List.cons_append, joinLines]
    have hlen : (joinLines (l :: rest)).length = l.length + 1 + (joinLines rest).length := by
      rw [joinLines]
      simp only [List.length_append, List.length_cons]
      omega
    by_cases hd : l.take 1 = ['d']
    · have h92 : l.length = 92 := hl.1.2.2 hd
      rw [findAddrFrom_skip_d a l _ base hl.1 hd hl.2,
        ih _ (fun l2 h2 => h l2 (by simp [h2])) hwdl hmdl]
      rw [hlen]
      have : base + 93 + (joinLines rest).length =
          base + (l.length + 1 + (joinLines rest).length) := by omega
      rw [this]
    · rw [findAddrFrom_skip_other a l _ base hl.1 hd,
        ih _ (fun l2 h2 => h l2 (by simp [h2])) hwdl hmdl]
      rw [hlen]
      have : base + l.length + 1 + (joinLines rest).length =
          base + (l.length + 1 + (joinLines rest).length) := by omega
      rw [this]

/-! ### In-place overwriting -/

theorem overwriteAt_length (s : List Char) (pos : Nat) (data : List Char)
    (h : pos + data.length ≤ s.length) : (overwriteAt s pos data).length = s.length := by
  rw [overwriteAt]
  simp only [List.length_append, List.length_take, List.length_drop]
  omega

theorem overwriteAt_getElem_lt (s : List Char) (pos : Nat) (data : List Char) (j : Nat)
    (hj : j < pos) (hpos : pos ≤ s.length) :
    (overwriteAt s pos data)[j]? = s[j]? := by
  rw [overwriteAt, List.append_assoc,
    List.getElem?_append_left (by simp only [List.length_take]; omega),
    List.getElem?_take_of_lt hj]

theorem overwriteAt_getElem_ge (s : List Char) (pos : Nat) (data : List Char) (j : Nat)
    (hj : pos + data.length ≤ j) (hpos : pos ≤ s.length) :
    (overwriteAt s pos data)[j]? = s[j]? := by
  rw [overwriteAt, List.append_assoc]
  have hlt : (s.take pos).length = pos := by
    simp only [List.length_take]
    omega
  rw [List.getElem?_append_right (by omega)]
  rw [List.getElem?_append_right (by simp only [List.length_take]; omega)]
  rw [List.getElem?_drop]
  congr 1
  simp only [hlt]
  omega

theorem overwriteAt_getElem_in (s : List Char) (pos : Nat) (data : List Char) (j : Nat)
    (hj : j < data.length) (hpos : pos ≤ s.length) :
    (overwriteAt s pos data)[pos + j]? = data[j]? := by
  rw [overwriteAt, List.append_assoc]
  have hlt : (s.take pos).length = pos := by
    simp only [List.length_take]
    omega
  rw [List.getElem?_append_right (by omega), hlt]
  have he : pos + j - pos = j := by omega
  rw [he, List.getElem?_append_left hj]

theorem updPayload_length (r : SuspiciosAddressType)
    (h1 : r.lastActivity < 10 ^ 20) (h2 : r.activityScore < 10 ^ 10)
    (h3 : r.activityCount < 10 ^ 10) (h4 : r.refusedCount < 10 ^ 10) :
    (updPayload r).length = 53 := by
  have e2 : (padLeft 20 (toDec r.lastActivity)).length = 20 :=
    padLeft_length _ _ (toDec_length_le 20 _ (by omega) h1)
  have e3 : (padLeft 10 (toDec r.activityScore)).length = 10 :=
    padLeft_length _ _ (toDec_length_le 10 _ (by omega) h2)
  have e4 : (padLeft 10 (toDec r.activityCount)).length = 10 :=
    padLeft_length _ _ (toDec_length_le 10 _ (by omega) h3)
  have e5 : (padLeft 10 (toDec r.refusedCount)).length = 10 :=
    padLeft_length _ _ (toDec_length_le 10 _ (by omega) h4)
  simp [updPayload, e2, e3, e4, e5]

theorem updPayload_getElem_52 (r : SuspiciosAddressType)
    (h1 : r.lastActivity < 10 ^ 20) (h2 : r.activityScore < 10 ^ 10)
    (h3 : r.activityCount < 10 ^ 10) (h4 : r.refusedCount < 10 ^ 10) :
    (updPayload r)[52]? = some '\n' := by
  have e2 : (padLeft 20 (toDec r.lastActivity)).length = 20 :=
    padLeft_length _ _ (toDec_length_le 20 _ (by omega) h1)
  have e3 : (padLeft 10 (toDec r.activityScore)).length = 10 :=
    padLeft_length _ _ (toDec_length_le 10 _ (by omega) h2)
  have e4 : (padLeft 10 (toDec r.activityCount)).length = 10 :=
    padLeft_length _ _ (toDec_length_le 10 _ (by omega) h3)
  have e5 : (padLeft 10 (toDec r.refusedCount)).length = 10 :=
    padLeft_length _ _ (toDec_length_le 10 _ (by omega) h4)
  rw [updPayload,
    List.getElem?_append_right (by simp only [List.length_append, e2, e3, e4, e5]; omega)]
  simp only [List.length_append, e2, e3, e4, e5]
  rfl

/-! ### Keys reachable by the line scan -/

theorem processLine_addrs_cases2 (st : ScanState) (l : List Char) :
    (processLine st l).addrs = st.addrs ∨
    (l.take 1 = ['d'] ∧
      (processLine st l).addrs = (mapInsert (parsedKey l) (parsedRecord l) st.addrs).1) := by
  rw [processLine]
  split
  · next h => right; exact ⟨h.1, rfl⟩
  · split
    · dsimp only
      split
      · left; rfl
      · left; rfl
    · left; rfl

theorem scan_addr_keys : ∀ (lines : List (List Char)) (st : ScanState) (k : List Char),
    k ∈ addrKeys (scanLines st lines).addrs →
    k ∈ addrKeys st.addrs ∨ ∃ l ∈ lines, l.take 1 = ['d'] ∧ parsedKey l = k := by
  intro lines
  induction lines with
  | nil => intro st k h; left; exact h
  | cons l ls ih =>
    intro st k h
    rw [scanLines_cons] at h
    rcases ih (processLine st l) k h with h2 | h2
    · rcases processLine_addrs_cases2 st l with hc | hc
      · rw [hc] at h2
        left
        exact h2
      · rw [hc.2] at h2
        rcases addrKeys_mapInsert _ _ _ _ h2 with h3 | h3
        · right
          exact ⟨l, by simp, hc.1, h3.symm⟩
        · left
          exact h3
    · obtain ⟨l2, hl2, hprop⟩ := h2
      right
      exact ⟨l2, by simp [hl2], hprop⟩

theorem scan_addr_keys_absent (lines : List (List Char)) (st : ScanState) (k : List Char)
    (hst : addrKeys st.addrs = [])
    (hno : ∀ l ∈ lines, ¬(l.take 1 = ['d'] ∧ parsedKey l = k)) :
    k ∉ addrKeys (scanLines st lines).addrs := by
  intro h
  rcases scan_addr_keys lines st k h with h2 | h2
  · rw [hst] at h2
    exact List.not_mem_nil k h2
  · obtain ⟨l, hl, hprop⟩ := h2
    exact hno l hl hprop

/-! ### Claim C5 — compaction/reload round trip -/

/-- C5 (amended): for an index satisfying the `std::map` sorted-keys invariant
whose addresses are at most 39 characters, left-trim-invariant (no leading
whitespace) and newline-free, whose counters fit their fixed column widths,
whose flags are not both set, and whose `iptableRule` is false (it is not
persisted), compacting with `saveData` and rescanning with `loadData` restores
the index field-for-field. -/
theorem claim5_roundtrip_amended (index : List (List Char × SuspiciosAddressType))
    (groups : List LogGroup) (cfg : Config)
    (hsorted : sortedMap index)
    (hkeys : ∀ kv ∈ index, ltrim kv.1 = kv.1 ∧ kv.1.length ≤ 39 ∧ '\n' ∉ kv.1)
    (hfits : ∀ kv ∈ index, kv.2.lastActivity < 10 ^ 20 ∧ kv.2.activityScore < 10 ^ 10 ∧
      kv.2.activityCount < 10 ^ 10 ∧ kv.2.refusedCount < 10 ^ 10 ∧
      ¬(kv.2.whitelisted = true ∧ kv.2.blacklisted = true) ∧ kv.2.iptableRule = false)
    (hpaths : ∀ g ∈ groups, ∀ lf ∈ g.logFiles, '\n' ∉ lf.path) :
    (loadScan cfg (saveDataContent index groups)).addrs = index := by
  have hsplit : splitLines (saveDataContent index groups) =
      index.map (fun kv => addressContent kv.1 kv.2) ++
      (groups.map (fun g => g.logFiles.map bookmarkContent)).flatten := by
    rw [saveDataContent]
    apply splitLines_joinLines
    intro l hl
    rcases List.mem_append.mp hl with hl | hl
    · rw [List.mem_map] at hl
      obtain ⟨kv, hkv, rfl⟩ := hl
      exact newline_not_mem_addressContent _ _ (hkeys kv hkv).2.2
    · obtain ⟨g, hg, lf, hlf, rfl⟩ := mem_bookmark_lines groups l hl
      exact newline_not_mem_bookmarkContent lf (hpaths g hg lf hlf)
  rw [loadScan, hsplit, scanLines_append]
  rw [scan_skips_bookmark_lines _ _ ?_]
  · rw [scan_serialized_lines index _ (fun a ha => absurd ha (List.not_mem_nil a)) hsorted
      (fun kv h => ⟨(hkeys kv h).1, (hkeys kv h).2.1⟩) hfits]
    simp
  · intro l hl
    obtain ⟨g, hg, lf, hlf, rfl⟩ := mem_bookmark_lines groups l hl
    rw [bookmarkContent_take_one]
    decide

/-- C5 counterexample to the claim as stated: the ASCII address `" a"`
(two characters, within 39) does not round trip — the loader left-trims the
padded address field, so the reloaded key is `"a"`. -/
theorem claim5_roundtrip_cex :
    (loadScan { dataFilePath := [], logGroups := [] }
       (saveDataContent [([' ', 'a'], ⟨0, 0, 0, 0, false, false, false⟩)] [])).addrs ≠
      [([' ', 'a'], ⟨0, 0, 0, 0, false, false, false⟩)] := by decide

/-- Witness for the amended C5 at a concrete two-address index and one
configured log file. -/
theorem claim5_roundtrip_amended_w :
    (loadScan { dataFilePath := ['p'], logGroups := [] }
       (saveDataContent
         [(['1'], ⟨3, 1, 4, 1, false, false, false⟩),
          (['2'], ⟨5, 9, 2, 6, true, false, false⟩)]
         [{ logFiles := [{ path := ['/', 'a'], bookmark := 5, size := 7 }] }])).addrs =
      [(['1'], ⟨3, 1, 4, 1, false, false, false⟩),
       (['2'], ⟨5, 9, 2, 6, true, false, false⟩)] :=
  claim5_roundtrip_amended _ _ _ (by rw [sortedMap]; decide) (by decide) (by decide)
    (by decide)

/-! ### Claims C9 and C10 — missing record on update/remove -/

/-- C9: on a well-formed store file in which the forward byte-wise scan finds
no live address record matching the target, `updateAddress` and
`removeAddress` both return failure. -/
theorem claim9_missing_record (a file : List Char)
    (mem : List (List Char × SuspiciosAddressType)) (ls : List (List Char))
    (hfile : file = joinLines ls)
    (hw : ∀ l ∈ ls, wfLine l) (hnm : ∀ l ∈ ls, ¬ matchesLine a l) :
    (updateAddress mem a file).2.2 = false ∧ (removeAddress a file).2 = false := by
  have hfind : findAddrLine a file = none := by
    rw [hfile, findAddrLine, findAddrFrom_join_none a ls 0 (fun l hl => ⟨hw l hl, hnm l hl⟩)]
  constructor
  · rw [updateAddress, hfind]
  · rw [removeAddress, hfind]

/-- Witness for C9: a store file holding only a record for address `2`, asked
about address `1`. -/
theorem claim9_missing_record_w :
    (updateAddress [] ['1']
      (joinLines [addressContent ['2'] ⟨0, 0, 0, 0, false, false, false⟩])).2.2 = false ∧
    (removeAddress ['1']
      (joinLines [addressContent ['2'] ⟨0, 0, 0, 0, false, false, false⟩])).2 = false :=
  claim9_missing_record ['1'] _ [] [addressContent ['2'] ⟨0, 0, 0, 0, false, false, false⟩]
    rfl (by decide) (by decide)

/-- C10 (implicit): a failed `updateAddress`/`removeAddress` — no live
matching record in a well-formed store file — is atomic: the file bytes are
returned unchanged and the in-memory index is passed through untouched
(`removeAddress` never reads or writes the index at all). -/
theorem claim10_failed_update_atomic (a file : List Char)
    (mem : List (List Char × SuspiciosAddressType)) (ls : List (List Char))
    (hfile : file = joinLines ls)
    (hw : ∀ l ∈ ls, wfLine l) (hnm : ∀ l ∈ ls, ¬ matchesLine a l) :
    updateAddress mem a file = (mem, file, false) ∧
    removeAddress a file = (file, false) := by
  have hfind : findAddrLine a file = none := by
    rw [hfile, findAddrLine, findAddrFrom_join_none a ls 0 (fun l hl => ⟨hw l hl, hnm l hl⟩)]
  constructor
  · rw [updateAddress, hfind]
  · rw [removeAddress, hfind]

/-- Witness for C10: same shape as the C9 witness, checking the whole state. -/
theorem claim10_failed_update_atomic_w :
    updateAddress [(['2'], ⟨1, 2, 3, 4, false, false, false⟩)] ['1']
      (joinLines [addressContent ['2'] ⟨1, 2, 3, 4, false, false, false⟩]) =
      ([(['2'], ⟨1, 2, 3, 4, false, false, false⟩)],
        joinLines [addressContent ['2'] ⟨1, 2, 3, 4, false, false, false⟩], false) ∧
    removeAddress ['1']
      (joinLines [addressContent ['2'] ⟨1, 2, 3, 4, false, false, false⟩]) =
      (joinLines [addressContent ['2'] ⟨1, 2, 3, 4, false, false, false⟩], false) :=
  claim10_failed_update_atomic ['1'] _ [(['2'], ⟨1, 2, 3, 4, false, false, false⟩)]
    [addressContent ['2'] ⟨1, 2, 3, 4, false, false, false⟩] rfl (by decide) (by decide)

/-! ### Claim C6 — tombstoning is a single-byte mutation -/

/-- C6 (amended): on a well-formed store file whose unique live matching
address line sits at byte offset `base`, `removeAddress` succeeds, changes
exactly the one byte at `base` — `'d'` overwritten with `'r'` — leaves the
length and every other byte unchanged, and a subsequent `loadData` scan of the
mutated file does not include the address.  (Uniqueness of the matching line
is required: with duplicates the loader still finds the second copy, see the
counterexample.) -/
theorem claim6_tombstone_amended (a dl : List Char) (pre post : List (List Char))
    (groups : List LogGroup) (file : List Char) (base : Nat) (file2 : List Char)
    (hfile : file = joinLines (pre ++ dl :: post))
    (hbase : base = (joinLines pre).length)
    (hw : ∀ l ∈ pre ++ dl :: post, wfLine l)
    (hnm : ∀ l ∈ pre ++ post, ¬ matchesLine a l)
    (hm : matchesLine a dl)
    (hfile2 : file2 = overwriteAt file base ['r']) :
    removeAddress a file = (file2, true) ∧
    file2.length = file.length ∧
    file[base]? = some 'd' ∧
    file2[base]? = some 'r' ∧
    (∀ j, j ≠ base → file2[j]? = file[j]?) ∧
    a ∉ addrKeys (scanLines
      { addrs := [], duplicatesFound := false, logGroups := groups, file := file2 }
      (splitLines file2)).addrs := by
  have hwdl : wfLine dl := hw dl (by simp)
  have hwpre : ∀ l ∈ pre, wfLine l ∧ ¬ matchesLine a l :=
    fun l hl => ⟨hw l (by simp [hl]), hnm l (by simp [hl])⟩
  obtain ⟨tl, hdl, htl, hnl⟩ := wf_d_line_shape dl hwdl hm.1
  have hsplit : file = joinLines pre ++ (dl ++ '\n' :: joinLines post) := by
    rw [hfile, joinLines_append]
    rfl
  have hfind : findAddrLine a file = some (base, 39) := by
    rw [hfile, findAddrLine, findAddrFrom_join_hit a dl post pre 0 hwpre hwdl hm,
      Nat.zero_add, ← hbase]
  have hdl92 : dl.length = 92 := by
    rw [hdl]
    simp only [List.length_cons]
    omega
  have hlenfile : file.length = base + 93 + (joinLines post).length := by
    rw [hsplit, hbase]
    simp only [List.length_append, List.length_cons]
    omega
  have hrm : removeAddress a file = (file2, true) := by
    rw [removeAddress, hfind]
    dsimp only
    have he : base + 1 + 39 - 40 = base := by omega
    rw [he, hfile2]
  refine ⟨hrm, ?_, ?_, ?_, ?_, ?_⟩
  · rw [hfile2]
    exact overwriteAt_length file base ['r'] (by simp only [List.length_singleton]; omega)
  · rw [hsplit, hbase, List.getElem?_append_right (Nat.le_refl _), Nat.sub_self, hdl,
      List.cons_append]
    simp
  · rw [hfile2]
    have h0 := overwriteAt_getElem_in file base ['r'] 0 (by simp) (by omega)
    rw [Nat.add_zero] at h0
    rw [h0]
    rfl
  · intro j hj
    rw [hfile2]
    rcases Nat.lt_or_ge j base with hlt | hge
    · exact overwriteAt_getElem_lt file base ['r'] j hlt (by omega)
    · have hgt : base + 1 ≤ j := by omega
      exact overwriteAt_getElem_ge file base ['r'] j
        (by simp only [List.length_singleton]; omega) (by omega)
  · have hfile2eq : file2 = joinLines (pre ++ ('r' :: tl) :: post) := by
      rw [hfile2, hsplit, hbase, overwriteAt, List.take_left, joinLines_append]
      have hdrop : (joinLines pre ++ (dl ++ '\n' :: joinLines post)).drop
          ((joinLines pre).length + ['r'].length) = tl ++ '\n' :: joinLines post := by
        rw [List.drop_append, hdl]
        rfl
      rw [hdrop]
      simp [joinLines, List.append_assoc]
    have hnlines : ∀ l ∈ pre ++ ('r' :: tl) :: post, '\n' ∉ l := by
      intro l hl
      rcases List.mem_append.mp hl with hl2 | hl2
      · exact (hw l (by simp [hl2])).1
      · rcases List.mem_cons.mp hl2 with hl3 | hl3
        · rw [hl3]
          intro hmem
          rcases List.mem_cons.mp hmem with h4 | h4
          · exact absurd h4 (by decide)
          · exact hnl h4
        · exact (hw l (by simp [hl3])).1
    rw [hfile2eq, splitLines_joinLines _ hnlines]
    apply scan_addr_keys_absent
    · rfl
    · intro l hl
      rcases List.mem_append.mp hl with hl2 | hl2
      · exact hnm l (by simp [hl2])
      · rcases List.mem_cons.mp hl2 with hl3 | hl3
        · rw [hl3]
          intro hc
          have htake : ('r' :: tl).take 1 = ['r'] := rfl
          rw [htake] at hc
          exact absurd hc.1 (by decide)
        · exact hnm l (by simp [hl3])

/-- C6 counterexample to the claim as stated: a store file holding the same
well-formed address line twice.  `removeAddress` succeeds (and flips one
byte), yet a subsequent `loadData` scan still includes the address, because
only the first copy was tombstoned. -/
theorem claim6_tombstone_cex :
    (removeAddress ['1'] (joinLines
      [addressContent ['1'] ⟨0, 0, 0, 0, false, false, false⟩,
       addressContent ['1'] ⟨0, 0, 0, 0, false, false, false⟩])).2 = true ∧
    ['1'] ∈ addrKeys (scanLines
      { addrs := [], duplicatesFound := false, logGroups := [],
        file := (removeAddress ['1'] (joinLines
          [addressContent ['1'] ⟨0, 0, 0, 0, false, false, false⟩,
           addressContent ['1'] ⟨0, 0, 0, 0, false, false, false⟩])).1 }
      (splitLines (removeAddress ['1'] (joinLines
        [addressContent ['1'] ⟨0, 0, 0, 0, false, false, false⟩,
         addressContent ['1'] ⟨0, 0, 0, 0, false, false, false⟩])).1)).addrs := by
  constructor
  · decide
  · decide

/-- Witness for the amended C6 at a concrete three-line store file: a
bookmark line, the matching address line, and a non-matching address line. -/
theorem claim6_tombstone_amended_w :
    removeAddress ['1'] (joinLines
      [bookmarkContent { path := ['/', 'a'], bookmark := 5, size := 7 },
       addressContent ['1'] ⟨8, 1, 2, 3, false, false, false⟩,
       addressContent ['2'] ⟨9, 4, 5, 6, false, false, false⟩]) =
      (overwriteAt (joinLines
        [bookmarkContent { path := ['/', 'a'], bookmark := 5, size := 7 },
         addressContent ['1'] ⟨8, 1, 2, 3, false, false, false⟩,
         addressContent ['2'] ⟨9, 4, 5, 6, false, false, false⟩]) 44 ['r'], true) ∧
    (overwriteAt (joinLines
      [bookmarkContent { path := ['/', 'a'], bookmark := 5, size := 7 },
       addressContent ['1'] ⟨8, 1, 2, 3, false, false, false⟩,
       addressContent ['2'] ⟨9, 4, 5, 6, false, false, false⟩]) 44 ['r']).length =
      (joinLines
        [bookmarkContent { path := ['/', 'a'], bookmark := 5, size := 7 },
         addressContent ['1'] ⟨8, 1, 2, 3, false, false, false⟩,
         addressContent ['2'] ⟨9, 4, 5, 6, false, false, false⟩]).length ∧
    (joinLines
      [bookmarkContent { path := ['/', 'a'], bookmark := 5, size := 7 },
       addressContent ['1'] ⟨8, 1, 2, 3, false, false, false⟩,
       addressContent ['2'] ⟨9, 4, 5, 6, false, false, false⟩])[44]? = some 'd' ∧
    (overwriteAt (joinLines
      [bookmarkContent { path := ['/', 'a'], bookmark := 5, size := 7 },
       addressContent ['1'] ⟨8, 1, 2, 3, false, false, false⟩,
       addressContent ['2'] ⟨9, 4, 5, 6, false, false, false⟩]) 44 ['r'])[44]? = some 'r' ∧
    (∀ j, j ≠ 44 →
      (overwriteAt (joinLines
        [bookmarkContent { path := ['/', 'a'], bookmark := 5, size := 7 },
         addressContent ['1'] ⟨8, 1, 2, 3, false, false, false⟩,
         addressContent ['2'] ⟨9, 4, 5, 6, false, false, false⟩]) 44 ['r'])[j]? =
      (joinLines
        [bookmarkContent { path := ['/', 'a'], bookmark := 5, size := 7 },
         addressContent ['1'] ⟨8, 1, 2, 3, false, false, false⟩,
         addressContent ['2'] ⟨9, 4, 5, 6, false, false, false⟩])[j]?) ∧
    ['1'] ∉ addrKeys (scanLines
      { addrs := [], duplicatesFound := false, logGroups := [],
        file := overwriteAt (joinLines
          [bookmarkContent { path := ['/', 'a'], bookmark := 5, size := 7 },
           addressContent ['1'] ⟨8, 1, 2, 3, false, false, false⟩,
           addressContent ['2'] ⟨9, 4, 5, 6, false, false, false⟩]) 44 ['r'] }
      (splitLines (overwriteAt (joinLines
        [bookmarkContent { path := ['/', 'a'], bookmark := 5, size := 7 },
         addressContent ['1'] ⟨8, 1, 2, 3, false, false, false⟩,
         addressContent ['2'] ⟨9, 4, 5, 6, false, false, false⟩]) 44 ['r']))).addrs :=
  claim6_tombstone_amended ['1'] (addressContent ['1'] ⟨8, 1, 2, 3, false, false, false⟩)
    [bookmarkContent { path := ['/', 'a'], bookmark := 5, size := 7 }]
    [addressContent ['2'] ⟨9, 4, 5, 6, false, false, false⟩] [] _ 44 _
    rfl (by decide) (by decide) (by decide) (by decide) rfl

/-! ### Claim C7 — in-place update is a pure payload overwrite -/

/-- C7: for a well-formed store file whose first live matching line starts at
byte offset `base`, `updateAddress` succeeds, leaves the in-memory index
untouched, and overwrites only the payload after the fixed 39-byte address
field of that line — every byte below `base + 40` (the type byte, the address
field, and all earlier records) and at or above `base + 92` (the line's
newline and every later record) reads back unchanged, the total length is
preserved, and the byte at `base + 92` is still the newline. -/
theorem claim7_update_frame (a dl : List Char) (pre post : List (List Char))
    (mem : List (List Char × SuspiciosAddressType)) (r : SuspiciosAddressType)
    (file : List Char) (base : Nat) (file2 : List Char)
    (hfile : file = joinLines (pre ++ dl :: post))
    (hbase : base = (joinLines pre).length)
    (hw : ∀ l ∈ pre ++ dl :: post, wfLine l)
    (hnm : ∀ l ∈ pre, ¬ matchesLine a l)
    (hm : matchesLine a dl)
    (hsorted : sortedMap mem) (hfound : mapLookup a mem = some r)
    (h1 : r.lastActivity < 10 ^ 20) (h2 : r.activityScore < 10 ^ 10)
    (h3 : r.activityCount < 10 ^ 10) (h4 : r.refusedCount < 10 ^ 10)
    (hfile2 : file2 = overwriteAt file (base + 40) (updPayload r)) :
    updateAddress mem a file = (mem, file2, true) ∧
    file2.length = file.length ∧
    (∀ j, j < base + 40 ∨ base + 92 ≤ j → file2[j]? = file[j]?) ∧
    file2[base + 92]? = some '\n' ∧
    file[base + 92]? = some '\n' := by
  have hwdl : wfLine dl := hw dl (by simp)
  have hwpre : ∀ l ∈ pre, wfLine l ∧ ¬ matchesLine a l :=
    fun l hl => ⟨hw l (by simp [hl]), hnm l hl⟩
  obtain ⟨tl, hdl, htl, hnl⟩ := wf_d_line_shape dl hwdl hm.1
  have hsplit : file = joinLines pre ++ (dl ++ '\n' :: joinLines post) := by
    rw [hfile, joinLines_append]
    rfl
  have hfind : findAddrLine a file = some (base, 39) := by
    rw [hfile, findAddrLine, findAddrFrom_join_hit a dl post pre 0 hwpre hwdl hm,
      Nat.zero_add, ← hbase]
  have hplen : (updPayload r).length = 53 := updPayload_length r h1 h2 h3 h4
  have hdl92 : dl.length = 92 := by
    rw [hdl]
    simp only [List.length_cons]
    omega
  have hlenfile : file.length = base + 93 + (joinLines post).length := by
    rw [hsplit, hbase]
    simp only [List.length_append, List.length_cons]
    omega
  have hup : updateAddress mem a file = (mem, file2, true) := by
    rw [updateAddress, hfind]
    dsimp only
    rw [mapInsert_of_lookup mem a defaultSuspicious r hsorted hfound]
    dsimp only
    rw [hfound]
    dsimp only [Option.getD]
    have he : base + 1 + 39 = base + 40 := by omega
    rw [he, hfile2]
  have hnf : file[base + 92]? = some '\n' := by
    rw [hsplit, List.getElem?_append_right (by omega)]
    have hi : base + 92 - (joinLines pre).length = 92 := by omega
    rw [hi, List.getElem?_append_right (by omega)]
    have hi2 : 92 - dl.length = 0 := by omega
    rw [hi2]
    simp
  refine ⟨hup, ?_, ?_, ?_, hnf⟩
  · rw [hfile2]
    exact overwriteAt_length _ _ _ (by omega)
  · intro j hj
    rw [hfile2]
    rcases hj with hj | hj
    · exact overwriteAt_getElem_lt _ _ _ j hj (by omega)
    · rcases Nat.lt_or_ge j (base + 93) with hj2 | hj2
      · have hje : j = base + 92 := by omega
        have hin := overwriteAt_getElem_in file (base + 40) (updPayload r) 52
          (by omega) (by omega)
        have hidx : base + 40 + 52 = base + 92 := by omega
        rw [hidx] at hin
        rw [hje, hin, updPayload_getElem_52 r h1 h2 h3 h4, hnf]
      · exact overwriteAt_getElem_ge _ _ _ j (by omega) (by omega)
  · rw [hfile2]
    have hin := overwriteAt_getElem_in file (base + 40) (updPayload r) 52
      (by omega) (by omega)
    have hidx : base + 40 + 52 = base + 92 := by omega
    rw [hidx] at hin
    rw [hin]
    exact updPayload_getElem_52 r h1 h2 h3 h4

/-- Witness for C7 at a concrete store file — a bookmark line, the matching
address line for address `1` at offset 44, and one later record — with a
concrete in-memory index holding fresh values for address `1`. -/
theorem claim7_update_frame_w :
    updateAddress [(['1'], ⟨77, 8, 9, 1, true, false, false⟩)] ['1']
      (joinLines
        [bookmarkContent { path := ['/', 'a'], bookmark := 5, size := 7 },
         addressContent ['1'] ⟨8, 1, 2, 3, false, false, false⟩,
         addressContent ['2'] ⟨9, 4, 5, 6, false, false, false⟩]) =
      ([(['1'], ⟨77, 8, 9, 1, true, false, false⟩)],
       overwriteAt (joinLines
         [bookmarkContent { path := ['/', 'a'], bookmark := 5, size := 7 },
          addressContent ['1'] ⟨8, 1, 2, 3, false, false, false⟩,
          addressContent ['2'] ⟨9, 4, 5, 6, false, false, false⟩]) (44 + 40)
         (updPayload ⟨77, 8, 9, 1, true, false, false⟩), true) ∧
    (overwriteAt (joinLines
      [bookmarkContent { path := ['/', 'a'], bookmark := 5, size := 7 },
       addressContent ['1'] ⟨8, 1, 2, 3, false, false, false⟩,
       addressContent ['2'] ⟨9, 4, 5, 6, false, false, false⟩]) (44 + 40)
      (updPayload ⟨77, 8, 9, 1, true, false, false⟩)).length =
    (joinLines
      [bookmarkContent { path := ['/', 'a'], bookmark := 5, size := 7 },
       addressContent ['1'] ⟨8, 1, 2, 3, false, false, false⟩,
       addressContent ['2'] ⟨9, 4, 5, 6, false, false, false⟩]).length ∧
    (∀ j, j < 44 + 40 ∨ 44 + 92 ≤ j →
      (overwriteAt (joinLines
        [bookmarkContent { path := ['/', 'a'], bookmark := 5, size := 7 },
         addressContent ['1'] ⟨8, 1, 2, 3, false, false, false⟩,
         addressContent ['2'] ⟨9, 4, 5, 6, false, false, false⟩]) (44 + 40)
        (updPayload ⟨77, 8, 9, 1, true, false, false⟩))[j]? =
      (joinLines
        [bookmarkContent { path := ['/', 'a'], bookmark := 5, size := 7 },
         addressContent ['1'] ⟨8, 1, 2, 3, false, false, false⟩,
         addressContent ['2'] ⟨9, 4, 5, 6, false, false, false⟩])[j]?) ∧
    (overwriteAt (joinLines
      [bookmarkContent { path := ['/', 'a'], bookmark := 5, size := 7 },
       addressContent ['1'] ⟨8, 1, 2, 3, false, false, false⟩,
       addressContent ['2'] ⟨9, 4, 5, 6, false, false, false⟩]) (44 + 40)
      (updPayload ⟨77, 8, 9, 1, true, false, false⟩))[44 + 92]? = some '\n' ∧
    (joinLines
      [bookmarkContent { path := ['/', 'a'], bookmark := 5, size := 7 },
       addressContent ['1'] ⟨8, 1, 2, 3, false, false, false⟩,
       addressContent ['2'] ⟨9, 4, 5, 6, false, false, false⟩])[44 + 92]? = some '\n' :=
  claim7_update_frame ['1'] (addressContent ['1'] ⟨8, 1, 2, 3, false, false, false⟩)
    [bookmarkContent { path := ['/', 'a'], bookmark := 5, size := 7 }]
    [addressContent ['2'] ⟨9, 4, 5, 6, false, false, false⟩]
    [(['1'], ⟨77, 8, 9, 1, true, false, false⟩)] ⟨77, 8, 9, 1, true, false, false⟩
    _ 44 _ rfl (by decide) (by decide) (by decide) (by decide)
    (by rw [sortedMap]; decide) (by decide) (by decide) (by decide) (by decide) (by decide)
    rfl

/-! ### Claim C1 — fixed-width gate of `loadData` -/

/-- C1: a store-file line is accepted by `loadData` as a live address record
only when it begins with `'d'` and its total length is the exact fixed width
of an address record — 92 characters as delivered by `getline`, i.e. the type
byte plus the 91 payload bytes; a `'d'` line of any other length is silently
skipped (the state is unchanged), and an accepted one is decoded and inserted
into the in-memory index. -/
theorem claim1_fixed_width_gate (st : ScanState) (line : List Char)
    (hd : line.take 1 = ['d']) :
    (line.length ≠ 92 → processLine st line = st) ∧
    (line.length = 92 → processLine st line =
      { st with addrs := (mapInsert (parsedKey line) (parsedRecord line) st.addrs).1,
                duplicatesFound := st.duplicatesFound ||
                  !(mapInsert (parsedKey line) (parsedRecord line) st.addrs).2 }) :=
  ⟨fun hlen => processLine_skipped_d st line hd hlen,
   fun hlen => processLine_accepted st line hd hlen⟩

/-- Witness for C1 at a concrete 91-character `'d'` line (one byte short of
the fixed width): the scan state is left unchanged. -/
theorem claim1_fixed_width_gate_w :
    processLine { addrs := [], duplicatesFound := false, logGroups := [], file := [] }
      ('d' :: List.replicate 90 ' ') =
      { addrs := [], duplicatesFound := false, logGroups := [], file := [] } :=
  (claim1_fixed_width_gate _ _ (by decide)).1 (by decide)

/-! ### Claim C8 — whitelist dominance -/

/-- C8: an address line carrying `'y'` in both flag columns is loaded with
`whitelisted = true` and `blacklisted = false` (whitelist wins), and no record
of the in-memory index ever has both flags true after a load. -/
theorem claim8_whitelist_dominance (line : List Char) (cfg : Config) (content : List Char)
    (hd : line.take 1 = ['d']) (hlen : line.length = 92)
    (hw : (line.drop 90).take 1 = ['y']) (hb : (line.drop 91).take 1 = ['y']) :
    ((parsedRecord line).whitelisted = true ∧ (parsedRecord line).blacklisted = false) ∧
    ∀ kv ∈ (loadScan cfg content).addrs,
      ¬(kv.2.whitelisted = true ∧ kv.2.blacklisted = true) := by
  constructor
  · rw [parsedRecord]
    dsimp only
    simp [hw, hb]
  · intro kv hm
    rw [loadScan] at hm
    exact scan_not_both (splitLines content) _ (by simp) kv hm

/-- Witness for C8 at a concrete line with both flags set and a concrete
store file containing it. -/
theorem claim8_whitelist_dominance_w :
    ((parsedRecord (addressContent ['1']
        ⟨0, 0, 0, 0, true, true, false⟩)).whitelisted = true ∧
     (parsedRecord (addressContent ['1']
        ⟨0, 0, 0, 0, true, true, false⟩)).blacklisted = false) ∧
    ∀ kv ∈ (loadScan { dataFilePath := [], logGroups := [] }
        (joinLines [addressContent ['1'] ⟨0, 0, 0, 0, true, true, false⟩])).addrs,
      ¬(kv.2.whitelisted = true ∧ kv.2.blacklisted = true) :=
  claim8_whitelist_dominance _ _ _ (by decide) (by decide) (by decide) (by decide)

/-! ### Claim C2 — orphan bookmarks are not tombstoned (code bug)

`Data::loadData` detects an orphaned `'b'` line and calls `Data::removeFile`
while logging "Removing from datafile...", but `removeFile` is an
unimplemented stub that returns `false` and never writes, so the line keeps
its `'b'` type byte.  Evaluated here on a store file holding one bookmark for
`/b` under a configuration that only declares `/a`. -/

/-- C2 (failing-input evaluation): after the `loadData` scan the orphan
bookmark line is still live (`'b'` leading byte, file bytes unchanged), the
in-memory log files are untouched, no address is loaded, and the
`removeFile` call itself reports failure without mutating the file. -/
theorem claim2_orphan_not_tombstoned :
    (loadScan { dataFilePath := ['p'],
                logGroups := [{ logFiles := [{ path := ['/', 'a'], bookmark := 0, size := 0 }] }] }
        (joinLines [bookmarkContent { path := ['/', 'b'], bookmark := 5, size := 7 }])).file =
      joinLines [bookmarkContent { path := ['/', 'b'], bookmark := 5, size := 7 }] ∧
    (loadScan { dataFilePath := ['p'],
                logGroups := [{ logFiles := [{ path := ['/', 'a'], bookmark := 0, size := 0 }] }] }
        (joinLines [bookmarkContent { path := ['/', 'b'], bookmark := 5, size := 7 }])).file.take 1 =
      ['b'] ∧
    (loadScan { dataFilePath := ['p'],
                logGroups := [{ logFiles := [{ path := ['/', 'a'], bookmark := 0, size := 0 }] }] }
        (joinLines [bookmarkContent { path := ['/', 'b'], bookmark := 5, size := 7 }])).logGroups =
      [{ logFiles := [{ path := ['/', 'a'], bookmark := 0, size := 0 }] }] ∧
    removeFile ['/', 'b']
        (joinLines [bookmarkContent { path := ['/', 'b'], bookmark := 5, size := 7 }]) =
      (joinLines [bookmarkContent { path := ['/', 'b'], bookmark := 5, size := 7 }], false) := by
  refine ⟨by decide, by decide, by decide, rfl⟩

/-! ### Claim C3 — bookmark mutations are unimplemented stubs (code bug) -/

/-- C3 (failing-input evaluation): `addFile`, `updateFile` and `removeFile` do
not implement the append / in-place update / tombstone strategies the spec
requires for `'b'` lines — each returns `false` and leaves the file
byte-for-byte unchanged, for every path and every file. -/
theorem claim3_bookmark_stubs (p f : List Char) :
    addFile p f = (f, false) ∧ updateFile p f = (f, false) ∧ removeFile p f = (f, false) :=
  ⟨rfl, rfl, rfl⟩

/-! ### Claim C4 — duplicate handling and backup-then-compact recovery -/

/-- C4: on a well-formed address line whose key is already present, the index
keeps the first occurrence's values and the duplicate flag is raised; after a
scan that found duplicates, `loadData` fails when a backup of the timestamped
name (`<path>_<YYYYMMDDHHMMSS>.bck`, components zero-padded) already exists or
the rename fails, and otherwise renames the store to that backup and rewrites
a deduplicated file from the in-memory index via compaction. -/
theorem claim4_duplicate_recovery (st : ScanState) (k : List Char)
    (r1 : SuspiciosAddressType) (line : List Char)
    (cfg : Config) (content : List Char) (t : TimeParts) (bE rO sO : Bool)
    (hsorted : sortedMap st.addrs) (hfound : mapLookup k st.addrs = some r1)
    (hd : line.take 1 = ['d']) (hlen : line.length = 92) (hkey : parsedKey line = k)
    (hdup : (loadScan cfg content).duplicatesFound = true) :
    ((processLine st line).addrs = st.addrs ∧
     (processLine st line).duplicatesFound = true) ∧
    (bE = true → (loadData cfg content t bE rO sO).ok = false ∧
       (loadData cfg content t bE rO sO).renamedTo = none ∧
       (loadData cfg content t bE rO sO).written = none) ∧
    (bE = false → rO = false → (loadData cfg content t bE rO sO).ok = false ∧
       (loadData cfg content t bE rO sO).written = none) ∧
    (bE = false → rO = true → sO = true →
       (loadData cfg content t bE rO sO).ok = true ∧
       (loadData cfg content t bE rO sO).renamedTo =
         some (backupFileName cfg.dataFilePath t) ∧
       (loadData cfg content t bE rO sO).written =
         some (saveDataContent (loadScan cfg content).addrs
           (loadScan cfg content).logGroups)) := by
  refine ⟨?_, ?_, ?_, ?_⟩
  · rw [processLine_accepted st line hd hlen, hkey,
      mapInsert_of_lookup st.addrs k (parsedRecord line) r1 hsorted hfound]
    exact ⟨rfl, by simp⟩
  · intro h1
    subst h1
    simp [loadData, hdup]
  · intro h1 h2
    subst h1
    subst h2
    simp [loadData, hdup]
  · intro h1 h2 h3
    subst h1
    subst h2
    subst h3
    simp [loadData, hdup]

/-- Witness for C4: a concrete index holding address `1`, a concrete second
line for the same address with different counters, and a concrete store file
consisting of that address line twice; the backup/rename/compaction outcome is
checked with the backup absent and both rename and rewrite succeeding. -/
theorem claim4_duplicate_recovery_w :
    ((processLine
        { addrs := [(['1'], ⟨0, 0, 0, 0, false, false, false⟩)],
          duplicatesFound := false, logGroups := [], file := [] }
        (addressContent ['1'] ⟨9, 9, 9, 9, false, false, false⟩)).addrs =
       [(['1'], ⟨0, 0, 0, 0, false, false, false⟩)] ∧
     (processLine
        { addrs := [(['1'], ⟨0, 0, 0, 0, false, false, false⟩)],
          duplicatesFound := false, logGroups := [], file := [] }
        (addressContent ['1'] ⟨9, 9, 9, 9, false, false, false⟩)).duplicatesFound = true) ∧
    (true = true →
       (loadData { dataFilePath := ['p'], logGroups := [] }
          (joinLines [addressContent ['1'] ⟨0, 0, 0, 0, false, false, false⟩,
            addressContent ['1'] ⟨0, 0, 0, 0, false, false, false⟩])
          ⟨70, 0, 1, 2, 3, 4⟩ true true true).ok = false ∧
       (loadData { dataFilePath := ['p'], logGroups := [] }
          (joinLines [addressContent ['1'] ⟨0, 0, 0, 0, false, false, false⟩,
            addressContent ['1'] ⟨0, 0, 0, 0, false, false, false⟩])
          ⟨70, 0, 1, 2, 3, 4⟩ true true true).renamedTo = none ∧
       (loadData { dataFilePath := ['p'], logGroups := [] }
          (joinLines [addressContent ['1'] ⟨0, 0, 0, 0, false, false, false⟩,
            addressContent ['1'] ⟨0, 0, 0, 0, false, false, false⟩])
          ⟨70, 0, 1, 2, 3, 4⟩ true true true).written = none) ∧
    (true = false → true = false →
       (loadData { dataFilePath := ['p'], logGroups := [] }
          (joinLines [addressContent ['1'] ⟨0, 0, 0, 0, false, false, false⟩,
            addressContent ['1'] ⟨0, 0, 0, 0, false, false, false⟩])
          ⟨70, 0, 1, 2, 3, 4⟩ true true true).ok = false ∧
       (loadData { dataFilePath := ['p'], logGroups := [] }
          (joinLines [addressContent ['1'] ⟨0, 0, 0, 0, false, false, false⟩,
            addressContent ['1'] ⟨0, 0, 0, 0, false, false, false⟩])
          ⟨70, 0, 1, 2, 3, 4⟩ true true true).written = none) ∧
    (true = false → true = true → true = true →
       (loadData { dataFilePath := ['p'], logGroups := [] }
          (joinLines [addressContent ['1'] ⟨0, 0, 0, 0, false, false, false⟩,
            addressContent ['1'] ⟨0, 0, 0, 0, false, false, false⟩])
          ⟨70, 0, 1, 2, 3, 4⟩ true true true).ok = true ∧
       (loadData { dataFilePath := ['p'], logGroups := [] }
          (joinLines [addressContent ['1'] ⟨0, 0, 0, 0, false, false, false⟩,
            addressContent ['1'] ⟨0, 0, 0, 0, false, false, false⟩])
          ⟨70, 0, 1, 2, 3, 4⟩ true true true).renamedTo =
         some (backupFileName ['p'] ⟨70, 0, 1, 2, 3, 4⟩) ∧
       (loadData { dataFilePath := ['p'], logGroups := [] }
          (joinLines [addressContent ['1'] ⟨0, 0, 0, 0, false, false, false⟩,
            addressContent ['1'] ⟨0, 0, 0, 0, false, false, false⟩])
          ⟨70, 0, 1, 2, 3, 4⟩ true true true).written =
         some (saveDataContent
           (loadScan { dataFilePath := ['p'], logGroups := [] }
             (joinLines [addressContent ['1'] ⟨0, 0, 0, 0, false, false, false⟩,
               addressContent ['1'] ⟨0, 0, 0, 0, false, false, false⟩])).addrs
           (loadScan { dataFilePath := ['p'], logGroups := [] }
             (joinLines [addressContent ['1'] ⟨0, 0, 0, 0, false, false, false⟩,
               addressContent ['1'] ⟨0, 0, 0, 0, false, false, false⟩])).logGroups)) :=
  claim4_duplicate_recovery _ ['1'] ⟨0, 0, 0, 0, false, false, false⟩ _ _ _
    ⟨70, 0, 1, 2, 3, 4⟩ true true true
    (by simp [sortedMap]) (by decide) (by decide) (by decide) (by decide) (by decide)

end hb
